import Mathlib

/-!
Verification development for the gnubgparser repository: a shallow embedding
of the SGF character stream, the recursive-descent game-tree parser
(parser.go), and the SGF-node-to-Match converter (converter.go, types.go),
together with theorems settling the frozen claims about them.

Go strings are modelled as `List Char`, Go `int` as `Int`, and Go
`float32`/`float64` as `Rat` with exact arithmetic (positional field layout,
not floating-point rounding, is what the claims are about).  Go's
`strconv.Atoi` / `strconv.ParseFloat` are modelled by executable decimal
parsers returning `Option`, matching Go's zero-value-on-error convention at
the call sites.
-/

namespace Gnubg

/-- Go strings, modelled as lists of characters. -/
abbrev Str := List Char

/-- Shorthand to write `Str` literals from Lean string literals. -/
def str (s : String) : Str := s.toList

/-- Whitespace as recognised by the parser (space, tab, CR, LF). -/
def isSpaceChar (c : Char) : Bool := c = ' ' ∨ c = '\t' ∨ c = '\n' ∨ c = '\r'

/-- ASCII letter test used for property identifiers (parser.go uses the
ranges A-Z and a-z). -/
def isLetterChar (c : Char) : Bool :=
  ('A' ≤ c ∧ c ≤ 'Z') ∨ ('a' ≤ c ∧ c ≤ 'z')

/-- Decimal digit test. -/
def isDigitChar (c : Char) : Bool := '0' ≤ c ∧ c ≤ '9'

/-- Value of a string of decimal digits. -/
def digitsToNat (s : Str) : Nat :=
  s.foldl (fun acc c => acc * 10 + (c.toNat - 48)) 0

/-- Helper for `parseAtoi`: all-digits check plus accumulation. -/
def parseDigits (s : Str) : Option Nat :=
  if s ≠ [] ∧ s.all isDigitChar then some (digitsToNat s) else none

/-- Model of Go's `strconv.Atoi`: optional sign followed by one or more
decimal digits; anything else is an error (`none`). -/
def parseAtoi (s : Str) : Option Int :=
  match s with
  | '+' :: rest => (parseDigits rest).map Int.ofNat
  | '-' :: rest => (parseDigits rest).map (fun n => -(n : Int))
  | _ => (parseDigits s).map Int.ofNat

/-- Go `val, _ := strconv.Atoi(s)`: the zero value is kept on error. -/
def parseAtoiOr0 (s : Str) : Int := (parseAtoi s).getD 0

/-- Model of Go's `strconv.ParseFloat` on plain decimal notation: optional
sign, integer digits, optional fractional digits.  Exact rational value. -/
def parseDecimal (s : Str) : Option Rat :=
  let signed : Rat × Str :=
    match s with
    | '+' :: r => (1, r)
    | '-' :: r => (-1, r)
    | _ => (1, s)
  let sgn := signed.1
  let s₁ := signed.2
  let ip := s₁.takeWhile isDigitChar
  let rest := s₁.dropWhile isDigitChar
  match rest with
  | [] => if ip = [] then none else some (sgn * digitsToNat ip)
  | '.' :: fp =>
    if fp.all isDigitChar ∧ ¬(ip = [] ∧ fp = []) then
      some (sgn * ((digitsToNat ip : Rat) + (digitsToNat fp : Rat) / 10 ^ fp.length))
    else none
  | _ => none

/-- Go `v, _ := strconv.ParseFloat(s, bits)`: zero is kept on error. -/
def parseFloatOr0 (s : Str) : Rat := (parseDecimal s).getD 0

/-- Model of Go's `strings.Fields`: whitespace-separated tokens, empties
dropped. -/
def fieldsAux : Str → Str → List Str
  | [], cur => if cur = [] then [] else [cur]
  | c :: rest, cur =>
    if isSpaceChar c then
      if cur = [] then fieldsAux rest [] else cur :: fieldsAux rest []
    else fieldsAux rest (cur ++ [c])

/-- `strings.Fields`. -/
def fields (s : Str) : List Str := fieldsAux s []

/-- Model of Go's `strings.Split` on a single-character separator class;
empty fields are kept, as in Go. -/
def splitOnAux (p : Char → Bool) : Str → Str → List Str
  | [], cur => [cur]
  | c :: rest, cur =>
    if p c then cur :: splitOnAux p rest [] else splitOnAux p rest (cur ++ [c])

/-- Split, keeping empty fields. -/
def splitOn (p : Char → Bool) (s : Str) : List Str := splitOnAux p s []

/-- Model of `strings.Split(s, "][")` used by parseMatchInfo. -/
def splitBracketPairAux : Str → Str → List Str
  | [], cur => [cur]
  | ']' :: '[' :: rest, cur => cur :: splitBracketPairAux rest []
  | c :: rest, cur => splitBracketPairAux rest (cur ++ [c])

/-- `strings.Split(s, "][")`. -/
def splitBracketPair (s : Str) : List Str := splitBracketPairAux s []

/-- `strings.SplitN(s, ":", 2)`. -/
def splitN2Colon (s : Str) : List Str :=
  match splitFirstColon s [] with
  | some (a, b) => [a, b]
  | none => [s]
where
  splitFirstColon : Str → Str → Option (Str × Str)
    | [], _ => none
    | c :: rest, acc =>
      if c = ':' then some (acc, rest) else splitFirstColon rest (acc ++ [c])

/-- `strings.Trim(s, cutset)` for a character-set cutset. -/
def trimSet (cutset : Str) (s : Str) : Str :=
  ((s.dropWhile (cutset.contains ·)).reverse.dropWhile (cutset.contains ·)).reverse

/-- `strings.TrimSpace`. -/
def trimSpace (s : Str) : Str :=
  ((s.dropWhile isSpaceChar).reverse.dropWhile isSpaceChar).reverse

/-- `strings.TrimLeft(s, "+")`. -/
def trimLeftPlus (s : Str) : Str := s.dropWhile (· = '+')

/-- `strings.TrimSuffix(s, "R")` (removes one trailing R if present). -/
def trimSuffixR (s : Str) : Str :=
  if s.getLast? = some 'R' then s.dropLast else s

/-- `strings.HasSuffix(s, "R")`. -/
def hasSuffixR (s : Str) : Bool := s.getLast? = some 'R'

/-!
## Character stream (parser.go: SGFParser, readChar, peekChar, unreadChar)

The Go struct keeps a `bufio.Reader` plus a one-character buffer
(`char`, `hasChar`).  Here the not-yet-consumed part of the underlying
reader is the list `input`.  End of input models `io.EOF`.
-/

/-- parser.go `SGFParser`: remaining reader input plus the one-slot
lookahead buffer (`char` is the saved character, `hasChar` says whether the
buffer is full). -/
structure SGFParser where
  input : List Char
  char : Char
  hasChar : Bool
deriving Repr, DecidableEq

/-- parser.go `readChar`: take the buffered character if present, otherwise
read the next rune and save it for potential unread. -/
def readChar (p : SGFParser) : Except String (Char × SGFParser) :=
  if p.hasChar then .ok (p.char, { p with hasChar := false })
  else
    match p.input with
    | [] => .error "EOF"
    | ch :: rest => .ok (ch, { input := rest, char := ch, hasChar := false })

/-- parser.go `peekChar`: return the next character without consuming it,
filling the one-slot buffer. -/
def peekChar (p : SGFParser) : Except String (Char × SGFParser) :=
  if p.hasChar then .ok (p.char, p)
  else
    match readChar p with
    | .error e => .error e
    | .ok (ch, p') => .ok (ch, { p' with char := ch, hasChar := true })

/-- parser.go `unreadChar`: mark the saved character as unconsumed. -/
def unreadChar (p : SGFParser) : SGFParser := { p with hasChar := true }

/-- Number of characters still to be delivered (buffer plus reader). -/
def SGFParser.size (p : SGFParser) : Nat :=
  p.input.length + (if p.hasChar then 1 else 0)

/-- A stream state with an empty buffer. -/
def stS (cs : List Char) (c : Char) : SGFParser := ⟨cs, c, false⟩

/-- A stream state whose buffer holds `c`. -/
def stB (cs : List Char) (c : Char) : SGFParser := ⟨cs, c, true⟩

theorem readChar_stS_cons (c : Char) (cs : List Char) (x : Char) :
    readChar (stS (c :: cs) x) = .ok (c, stS cs c) := rfl

theorem readChar_stS_nil (x : Char) : readChar (stS [] x) = .error "EOF" := rfl

theorem readChar_stB (cs : List Char) (c : Char) :
    readChar (stB cs c) = .ok (c, stS cs c) := rfl

theorem peekChar_stS_cons (c : Char) (cs : List Char) (x : Char) :
    peekChar (stS (c :: cs) x) = .ok (c, stB cs c) := rfl

theorem peekChar_stS_nil (x : Char) : peekChar (stS [] x) = .error "EOF" := rfl

theorem peekChar_stB (cs : List Char) (c : Char) :
    peekChar (stB cs c) = .ok (c, stB cs c) := rfl

theorem readChar_size {p q : SGFParser} {c : Char}
    (h : readChar p = .ok (c, q)) : q.size + 1 = p.size := by
  unfold readChar at h
  split at h
  · cases h; simp [SGFParser.size, *]
  · cases hi : p.input with
    | nil => rw [hi] at h; cases h
    | cons a rest => rw [hi] at h; cases h; simp [SGFParser.size, hi, *]

theorem readChar_state {p q : SGFParser} {c : Char}
    (h : readChar p = .ok (c, q)) : q.char = c ∧ q.hasChar = false := by
  unfold readChar at h
  split at h
  · cases h; simp_all
  · cases hi : p.input with
    | nil => rw [hi] at h; cases h
    | cons a rest => rw [hi] at h; cases h; simp

theorem peekChar_size {p q : SGFParser} {c : Char}
    (h : peekChar p = .ok (c, q)) : q.size = p.size := by
  unfold peekChar at h
  split at h
  · cases h; rfl
  · cases hr : readChar p with
    | error e => rw [hr] at h; cases h
    | ok v =>
      obtain ⟨ch, p'⟩ := v
      rw [hr] at h; cases h
      have hs := readChar_size hr
      have hst := readChar_state hr
      simp [SGFParser.size, hst.2] at hs
      simp [SGFParser.size]
      omega

theorem peekChar_state {p q : SGFParser} {c : Char}
    (h : peekChar p = .ok (c, q)) : q.char = c ∧ q.hasChar = true := by
  unfold peekChar at h
  split at h
  · cases h; simp_all
  · cases hr : readChar p with
    | error e => rw [hr] at h; cases h
    | ok v =>
      obtain ⟨ch, p'⟩ := v
      rw [hr] at h; cases h; simp

/-- After a successful peek, reading returns the same character and just
empties the buffer. -/
theorem readChar_after_peek {p q : SGFParser} {c : Char}
    (h : peekChar p = .ok (c, q)) :
    readChar q = .ok (c, { q with hasChar := false }) := by
  obtain ⟨h1, h2⟩ := peekChar_state h
  unfold readChar
  simp [h1, h2]

/-- parser.go `skipWhitespace`: consume a run of space/tab/CR/LF. -/
def skipWhitespace (p : SGFParser) : SGFParser :=
  match h : peekChar p with
  | .error _ => p
  | .ok (ch, p₁) =>
    if isSpaceChar ch then
      match h₂ : readChar p₁ with
      | .error _ => p₁
      | .ok (_, p₂) => skipWhitespace p₂
    else p₁
termination_by p.size
decreasing_by
  have hp := peekChar_size h
  have hr := readChar_size h₂
  omega

theorem skipWhitespace_error {p : SGFParser} {e : String}
    (h : peekChar p = .error e) : skipWhitespace p = p := by
  rw [skipWhitespace]
  split
  · rfl
  · next heq => rw [h] at heq; cases heq

theorem skipWhitespace_ws {p p₁ p₂ : SGFParser} {ch c : Char}
    (h : peekChar p = .ok (ch, p₁)) (hws : isSpaceChar ch = true)
    (h₂ : readChar p₁ = .ok (c, p₂)) :
    skipWhitespace p = skipWhitespace p₂ := by
  rw [skipWhitespace]
  split
  · next heq => rw [h] at heq; cases heq
  · next ch' p₁' heq =>
    rw [h] at heq; cases heq
    rw [if_pos hws]
    split
    · next heq₂ => rw [h₂] at heq₂; cases heq₂
    · next c' p₂' heq₂ => rw [h₂] at heq₂; cases heq₂; rfl

theorem skipWhitespace_nws {p p₁ : SGFParser} {ch : Char}
    (h : peekChar p = .ok (ch, p₁)) (hws : isSpaceChar ch = false) :
    skipWhitespace p = p₁ := by
  rw [skipWhitespace]
  split
  · next heq => rw [h] at heq; cases heq
  · next ch' p₁' heq =>
    rw [h] at heq; cases heq
    rw [if_neg (by simp [hws])]

theorem skipWhitespace_stS_nil (x : Char) :
    skipWhitespace (stS [] x) = stS [] x :=
  skipWhitespace_error (peekChar_stS_nil x)

theorem skipWhitespace_cons_nws {c : Char} (cs : List Char) (x : Char)
    (hc : isSpaceChar c = false) :
    skipWhitespace (stS (c :: cs) x) = stB cs c :=
  skipWhitespace_nws (peekChar_stS_cons c cs x) hc

theorem skipWhitespace_cons_ws {c : Char} (cs : List Char) (x : Char)
    (hc : isSpaceChar c = true) :
    skipWhitespace (stS (c :: cs) x) = skipWhitespace (stS cs c) :=
  skipWhitespace_ws (peekChar_stS_cons c cs x) hc (readChar_stB cs c)

/-- A buffered state behaves exactly like the state that still has the
buffered character at the head of the input. -/
theorem skipWhitespace_stB (cs : List Char) (c x : Char) :
    skipWhitespace (stB cs c) = skipWhitespace (stS (c :: cs) x) := by
  by_cases hc : isSpaceChar c = true
  · rw [skipWhitespace_cons_ws cs x hc,
      skipWhitespace_ws (peekChar_stB cs c) hc (readChar_stB cs c)]
  · rw [skipWhitespace_cons_nws cs x (by simpa using hc),
      skipWhitespace_nws (peekChar_stB cs c) (by simpa using hc)]

theorem skipWhitespace_size_le (p : SGFParser) :
    (skipWhitespace p).size ≤ p.size := by
  induction p using skipWhitespace.induct with
  | case1 p e h => rw [skipWhitespace_error h]
  | case2 p ch p₁ h hws e h₂ =>
    have := readChar_after_peek h
    rw [h₂] at this; cases this
  | case3 p ch p₁ h hws c p₂ h₂ ih =>
    rw [skipWhitespace_ws h hws h₂]
    have hp := peekChar_size h
    have hr := readChar_size h₂
    omega
  | case4 p ch p₁ h hws =>
    rw [skipWhitespace_nws h (by simpa using hws)]
    have hp := peekChar_size h
    omega

/-!
## Tree parser (parser.go)
-/

/-- parser.go `parsePropertyValue` main loop: accumulate characters until an
unescaped `]`, a backslash escaping the next character. -/
def parsePropertyValueLoop (p : SGFParser) (acc : Str) (escaped : Bool) :
    Except String (Str × SGFParser) :=
  match h : readChar p with
  | .error e => .error e
  | .ok (ch, p') =>
    if escaped then parsePropertyValueLoop p' (acc ++ [ch]) false
    else if ch = '\\' then parsePropertyValueLoop p' acc true
    else if ch = ']' then .ok (acc, p')
    else parsePropertyValueLoop p' (acc ++ [ch]) false
termination_by p.size
decreasing_by
  all_goals have := readChar_size h
  all_goals omega

/-- parser.go `parsePropertyValue`: expect `[`, then read until `]`. -/
def parsePropertyValue (p : SGFParser) : Except String (Str × SGFParser) :=
  match readChar p with
  | .error _ => .error "expected [ at start of property value"
  | .ok (ch, p') =>
    if ch = '[' then parsePropertyValueLoop p' [] false
    else .error "expected [ at start of property value"

theorem parsePropertyValueLoop_ok_step {p p' : SGFParser} {ch : Char}
    (h : readChar p = .ok (ch, p')) (acc : Str) (escaped : Bool) :
    parsePropertyValueLoop p acc escaped =
      if escaped then parsePropertyValueLoop p' (acc ++ [ch]) false
      else if ch = '\\' then parsePropertyValueLoop p' acc true
      else if ch = ']' then .ok (acc, p')
      else parsePropertyValueLoop p' (acc ++ [ch]) false := by
  rw [parsePropertyValueLoop]
  split
  · next heq => rw [h] at heq; cases heq
  · next heq => rw [h] at heq; cases heq; rfl

theorem parsePropertyValueLoop_error_step {p : SGFParser} {e : String}
    (h : readChar p = .error e) (acc : Str) (escaped : Bool) :
    parsePropertyValueLoop p acc escaped = .error e := by
  rw [parsePropertyValueLoop]
  split
  · next heq => rw [h] at heq; cases heq; rfl
  · next heq => rw [h] at heq; cases heq

theorem parsePropertyValueLoop_size_le {p q : SGFParser} {acc v : Str}
    {escaped : Bool} (h : parsePropertyValueLoop p acc escaped = .ok (v, q)) :
    q.size ≤ p.size := by
  induction p, acc, escaped using parsePropertyValueLoop.induct with
  | case1 p acc escaped e hr =>
    rw [parsePropertyValueLoop_error_step hr] at h; cases h
  | case2 p acc ch p₂ hr ih =>
    rw [parsePropertyValueLoop_ok_step hr, if_pos rfl] at h
    have := readChar_size hr
    have := ih h
    omega
  | case3 p acc escaped p₂ hesc hr ih =>
    rw [parsePropertyValueLoop_ok_step hr] at h
    simp only [Bool.not_eq_true] at hesc
    simp only [hesc, Bool.false_eq_true, if_false, if_pos rfl] at h
    have := readChar_size hr
    have := ih h
    omega
  | case4 p acc escaped p₂ hesc hr hne =>
    rw [parsePropertyValueLoop_ok_step hr] at h
    simp only [Bool.not_eq_true] at hesc
    simp only [hesc, Bool.false_eq_true, if_false, if_neg hne, if_pos rfl] at h
    cases h
    have := readChar_size hr
    omega
  | case5 p acc escaped ch p₂ hr hesc hbs hrb ih =>
    rw [parsePropertyValueLoop_ok_step hr] at h
    simp only [Bool.not_eq_true] at hesc
    simp only [hesc, Bool.false_eq_true, if_false, if_neg hbs, if_neg hrb] at h
    have := readChar_size hr
    have := ih h
    omega

theorem parsePropertyValue_ok_step {p p' : SGFParser} {ch : Char}
    (h : readChar p = .ok (ch, p')) :
    parsePropertyValue p =
      if ch = '[' then parsePropertyValueLoop p' [] false
      else .error "expected [ at start of property value" := by
  unfold parsePropertyValue
  split
  · next heq => rw [h] at heq; cases heq
  · next heq => rw [h] at heq; cases heq; rfl

theorem parsePropertyValue_error_step {p : SGFParser} {e : String}
    (h : readChar p = .error e) :
    parsePropertyValue p = .error "expected [ at start of property value" := by
  unfold parsePropertyValue
  split
  · rfl
  · next heq => rw [h] at heq; cases heq

theorem parsePropertyValue_size_lt {p q : SGFParser} {v : Str}
    (h : parsePropertyValue p = .ok (v, q)) : q.size < p.size := by
  cases hr : readChar p with
  | error e => rw [parsePropertyValue_error_step hr] at h; cases h
  | ok pr =>
    obtain ⟨ch, p'⟩ := pr
    rw [parsePropertyValue_ok_step hr] at h
    by_cases hc : ch = '['
    · rw [if_pos hc] at h
      have := readChar_size hr
      have := parsePropertyValueLoop_size_le h
      omega
    · rw [if_neg hc] at h; cases h

/-- Well-formed raw value content: no closing bracket and no backslash. -/
def GoodVal (v : Str) : Prop := ∀ c ∈ v, c ≠ ']' ∧ c ≠ '\\'

theorem parsePropertyValueLoop_spec (v : Str) (hv : GoodVal v) :
    ∀ (acc : Str) (cs : List Char) (c₀ : Char),
    parsePropertyValueLoop (stS (v ++ ']' :: cs) c₀) acc false =
      .ok (acc ++ v, stS cs ']') := by
  induction v with
  | nil =>
    intro acc cs c₀
    simp only [List.nil_append]
    rw [parsePropertyValueLoop_ok_step (readChar_stS_cons ']' cs c₀)]
    simp
  | cons c v ih =>
    intro acc cs c₀
    have hc := hv c (by simp)
    rw [List.cons_append,
      parsePropertyValueLoop_ok_step (readChar_stS_cons c _ c₀)]
    simp only [if_neg hc.2, if_neg hc.1, Bool.false_eq_true, if_false]
    rw [ih (fun c hcm => hv c (by simp [hcm])) (acc ++ [c]) cs c]
    simp

theorem parsePropertyValue_spec_stS (v : Str) (hv : GoodVal v)
    (cs : List Char) (c₀ : Char) :
    parsePropertyValue (stS ('[' :: (v ++ ']' :: cs)) c₀) =
      .ok (v, stS cs ']') := by
  rw [parsePropertyValue_ok_step (readChar_stS_cons '[' _ c₀), if_pos rfl]
  simpa using parsePropertyValueLoop_spec v hv [] cs '['

theorem parsePropertyValue_spec_stB (v : Str) (hv : GoodVal v)
    (cs : List Char) :
    parsePropertyValue (stB (v ++ ']' :: cs) '[') = .ok (v, stS cs ']') := by
  rw [parsePropertyValue_ok_step (readChar_stB _ '['), if_pos rfl]
  simpa using parsePropertyValueLoop_spec v hv [] cs '['

/-- parser.go `parseProperty` name loop: read up to two ASCII letters,
pushing back the first non-letter. -/
def parsePropertyNameLoop (p : SGFParser) (name : Str) :
    Except String (Str × SGFParser) :=
  match h : readChar p with
  | .error e => .error e
  | .ok (ch, p') =>
    if isLetterChar ch then
      if 2 ≤ (name ++ [ch]).length then .ok (name ++ [ch], p')
      else parsePropertyNameLoop p' (name ++ [ch])
    else .ok (name, unreadChar p')
termination_by p.size
decreasing_by
  have := readChar_size h
  omega

/-- parser.go `parseProperty` value loop: collect `[...]` values while the
next non-whitespace character is `[`. -/
def parsePropertyValuesLoop (p : SGFParser) (vals : List Str) :
    Except String (List Str × SGFParser) :=
  match h : peekChar (skipWhitespace p) with
  | .error e => .error e
  | .ok (ch, p₂) =>
    if ch = '[' then
      match h₂ : parsePropertyValue p₂ with
      | .error e => .error e
      | .ok (v, p₃) => parsePropertyValuesLoop p₃ (vals ++ [v])
    else .ok (vals, p₂)
termination_by p.size
decreasing_by
  have ha := skipWhitespace_size_le p
  have hb := peekChar_size h
  have hc := parsePropertyValue_size_lt h₂
  omega

/-- parser.go `parseProperty`: a 1-2 letter name followed by its values. -/
def parseProperty (p : SGFParser) :
    Except String ((Str × List Str) × SGFParser) :=
  match parsePropertyNameLoop p [] with
  | .error e => .error e
  | .ok (name, p₁) =>
    match parsePropertyValuesLoop p₁ [] with
    | .error e => .error e
    | .ok (vals, p₂) => .ok ((name, vals), p₂)

theorem parsePropertyNameLoop_ok_step {p p' : SGFParser} {ch : Char}
    (h : readChar p = .ok (ch, p')) (name : Str) :
    parsePropertyNameLoop p name =
      if isLetterChar ch then
        if 2 ≤ (name ++ [ch]).length then .ok (name ++ [ch], p')
        else parsePropertyNameLoop p' (name ++ [ch])
      else .ok (name, unreadChar p') := by
  rw [parsePropertyNameLoop]
  split
  · next heq => rw [h] at heq; cases heq
  · next heq => rw [h] at heq; cases heq; rfl

theorem parsePropertyNameLoop_error_step {p : SGFParser} {e : String}
    (h : readChar p = .error e) (name : Str) :
    parsePropertyNameLoop p name = .error e := by
  rw [parsePropertyNameLoop]
  split
  · next heq => rw [h] at heq; cases heq; rfl
  · next heq => rw [h] at heq; cases heq

theorem parsePropertyNameLoop_size_le {p q : SGFParser} {name r : Str}
    (h : parsePropertyNameLoop p name = .ok (r, q)) : q.size ≤ p.size := by
  induction p, name using parsePropertyNameLoop.induct with
  | case1 p name e hr =>
    rw [parsePropertyNameLoop_error_step hr] at h; cases h
  | case2 p name ch p' hr hl hlen =>
    rw [parsePropertyNameLoop_ok_step hr, if_pos hl, if_pos hlen] at h
    cases h
    have := readChar_size hr
    omega
  | case3 p name ch p' hr hl hlen ih =>
    rw [parsePropertyNameLoop_ok_step hr, if_pos hl, if_neg hlen] at h
    have := readChar_size hr
    have := ih h
    omega
  | case4 p name ch p' hr hl =>
    rw [parsePropertyNameLoop_ok_step hr, if_neg (by simpa using hl)] at h
    cases h
    have hs := readChar_size hr
    have hst := readChar_state hr
    simp [unreadChar, SGFParser.size, hst.2] at *
    omega

theorem parsePropertyValuesLoop_peek_error {p : SGFParser} {e : String}
    (h : peekChar (skipWhitespace p) = .error e) (vals : List Str) :
    parsePropertyValuesLoop p vals = .error e := by
  rw [parsePropertyValuesLoop]
  split
  · next heq => rw [h] at heq; cases heq; rfl
  · next heq => rw [h] at heq; cases heq

theorem parsePropertyValuesLoop_stop {p p₂ : SGFParser} {ch : Char}
    (h : peekChar (skipWhitespace p) = .ok (ch, p₂)) (hch : ch ≠ '[')
    (vals : List Str) :
    parsePropertyValuesLoop p vals = .ok (vals, p₂) := by
  rw [parsePropertyValuesLoop]
  split
  · next heq => rw [h] at heq; cases heq
  · next heq => rw [h] at heq; cases heq; rw [if_neg hch]

theorem parsePropertyValuesLoop_val {p p₂ p₃ : SGFParser} {v : Str}
    (h : peekChar (skipWhitespace p) = .ok ('[', p₂))
    (h₂ : parsePropertyValue p₂ = .ok (v, p₃)) (vals : List Str) :
    parsePropertyValuesLoop p vals = parsePropertyValuesLoop p₃ (vals ++ [v]) := by
  rw [parsePropertyValuesLoop]
  split
  · next heq => rw [h] at heq; cases heq
  · next heq =>
    rw [h] at heq; cases heq
    rw [if_pos rfl]
    split
    · next heq₂ => rw [h₂] at heq₂; cases heq₂
    · next heq₂ => rw [h₂] at heq₂; cases heq₂; rfl

theorem parsePropertyValuesLoop_val_error {p p₂ : SGFParser} {e : String}
    (h : peekChar (skipWhitespace p) = .ok ('[', p₂))
    (h₂ : parsePropertyValue p₂ = .error e) (vals : List Str) :
    parsePropertyValuesLoop p vals = .error e := by
  rw [parsePropertyValuesLoop]
  split
  · next heq => rw [h] at heq; cases heq
  · next heq =>
    rw [h] at heq; cases heq
    rw [if_pos rfl]
    split
    · next heq₂ => rw [h₂] at heq₂; cases heq₂; rfl
    · next heq₂ => rw [h₂] at heq₂; cases heq₂

theorem parsePropertyValuesLoop_size_le {p q : SGFParser} {vals r : List Str}
    (h : parsePropertyValuesLoop p vals = .ok (r, q)) : q.size ≤ p.size := by
  induction p, vals using parsePropertyValuesLoop.induct with
  | case1 p vals e hp =>
    rw [parsePropertyValuesLoop_peek_error hp] at h; cases h
  | case2 p vals p₂ e herr hp =>
    rw [parsePropertyValuesLoop_val_error hp herr] at h; cases h
  | case3 p vals p₂ v p₃ hok hp ih =>
    rw [parsePropertyValuesLoop_val hp hok] at h
    have h₁ := skipWhitespace_size_le p
    have h₄ := peekChar_size hp
    have h₅ := parsePropertyValue_size_lt hok
    have := ih h
    omega
  | case4 p vals ch p₂ hp hch =>
    rw [parsePropertyValuesLoop_stop hp hch] at h
    cases h
    have h₁ := skipWhitespace_size_le p
    have h₄ := peekChar_size hp
    omega

theorem parseProperty_ok {p p₁ p₂ : SGFParser} {name : Str} {vals : List Str}
    (h₁ : parsePropertyNameLoop p [] = .ok (name, p₁))
    (h₂ : parsePropertyValuesLoop p₁ [] = .ok (vals, p₂)) :
    parseProperty p = .ok ((name, vals), p₂) := by
  unfold parseProperty
  rw [h₁]
  dsimp only
  rw [h₂]

theorem parseProperty_size_le {p q : SGFParser} {r : (Str × List Str)}
    (h : parseProperty p = .ok (r, q)) : q.size ≤ p.size := by
  unfold parseProperty at h
  cases h₁ : parsePropertyNameLoop p [] with
  | error e => rw [h₁] at h; cases h
  | ok nr =>
    obtain ⟨name, p₁⟩ := nr
    rw [h₁] at h
    dsimp only at h
    cases h₂ : parsePropertyValuesLoop p₁ [] with
    | error e => rw [h₂] at h; cases h
    | ok vr =>
      obtain ⟨vals, p₂⟩ := vr
      rw [h₂] at h
      dsimp only at h
      cases h
      have := parsePropertyNameLoop_size_le h₁
      have := parsePropertyValuesLoop_size_le h₂
      omega

/-- When the parser state holds a buffered letter (the situation in which
`parseNode` invokes `parseProperty`), a successful `parseProperty` strictly
consumes input. -/
theorem parseProperty_size_lt {p q : SGFParser} {r : (Str × List Str)}
    (hb : p.hasChar = true) (hl : isLetterChar p.char = true)
    (h : parseProperty p = .ok (r, q)) : q.size < p.size := by
  have hrd : readChar p = .ok (p.char, { p with hasChar := false }) := by
    unfold readChar
    rw [if_pos hb]
  unfold parseProperty at h
  rw [parsePropertyNameLoop_ok_step hrd, if_pos hl] at h
  simp only [List.nil_append, List.length_singleton] at h
  rw [if_neg (by omega)] at h
  cases h₁ : parsePropertyNameLoop { p with hasChar := false } [p.char] with
  | error e => rw [h₁] at h; cases h
  | ok nr =>
    obtain ⟨name, p₁⟩ := nr
    rw [h₁] at h
    dsimp only at h
    cases h₂ : parsePropertyValuesLoop p₁ [] with
    | error e => rw [h₂] at h; cases h
    | ok vr =>
      obtain ⟨vals, p₂⟩ := vr
      rw [h₂] at h
      dsimp only at h
      cases h
      have ha := parsePropertyNameLoop_size_le h₁
      have hc := parsePropertyValuesLoop_size_le h₂
      have : ({ p with hasChar := false } : SGFParser).size + 1 = p.size := by
        simp [SGFParser.size, hb]
      omega

/-- parser.go `SGFNode`: a property map plus child nodes.  The Go map is
modelled as an association list with replace-on-insert (`setProp`), which
captures exactly the later-assignment-wins behaviour of
`node.Properties[prop] = values`. -/
inductive SGFNode where
  | mk : List (Str × List Str) → List SGFNode → SGFNode
deriving Repr

/-- The property map of a node. -/
def SGFNode.properties : SGFNode → List (Str × List Str)
  | .mk props _ => props

/-- The children of a node. -/
def SGFNode.children : SGFNode → List SGFNode
  | .mk _ cs => cs

/-- Model of the Go map assignment `m[name] = vals`: replace the existing
binding if present, otherwise add one. -/
def setProp (props : List (Str × List Str)) (name : Str) (vals : List Str) :
    List (Str × List Str) :=
  match props with
  | [] => [(name, vals)]
  | (n, v) :: rest =>
    if n = name then (n, vals) :: rest else (n, v) :: setProp rest name vals

/-- Model of the Go map read `m[name]`. -/
def getPropEntry (props : List (Str × List Str)) (name : Str) :
    Option (List Str) :=
  match props with
  | [] => none
  | (n, v) :: rest => if n = name then some v else getPropEntry rest name

/-- parser.go `parseNode` property loop: read properties while the next
non-whitespace character is a letter. -/
def parseNodeLoop (p : SGFParser) (props : List (Str × List Str)) :
    Except String (List (Str × List Str) × SGFParser) :=
  match h : peekChar (skipWhitespace p) with
  | .error e => .error e
  | .ok (ch, p₂) =>
    if hc : isLetterChar ch then
      match h₂ : parseProperty p₂ with
      | .error e => .error ("error parsing property: " ++ e)
      | .ok (pr, p₃) => parseNodeLoop p₃ (setProp props pr.1 pr.2)
    else .ok (props, p₂)
termination_by p.size
decreasing_by
  have ha := skipWhitespace_size_le p
  have hb := peekChar_size h
  have hst := peekChar_state h
  have hlt := parseProperty_size_lt hst.2 (hst.1 ▸ hc) h₂
  omega

/-- parser.go `parseNode`: expect `;` then the property loop. -/
def parseNode (p : SGFParser) : Except String (SGFNode × SGFParser) :=
  match readChar p with
  | .error _ => .error "expected ; at start of node"
  | .ok (ch, p') =>
    if ch = ';' then
      match parseNodeLoop p' [] with
      | .error e => .error e
      | .ok (props, p₂) => .ok (SGFNode.mk props [], p₂)
    else .error "expected ; at start of node"

/-- parser.go `parseGame` variation skip: consume characters, tracking
parenthesis depth, until the depth returns to zero. -/
def skipVariationLoop (p : SGFParser) (depth : Nat) : Except String SGFParser :=
  if depth = 0 then .ok p
  else
    match h : readChar p with
    | .error e => .error e
    | .ok (ch, p') =>
      skipVariationLoop p'
        (if ch = '(' then depth + 1 else if ch = ')' then depth - 1 else depth)
termination_by p.size
decreasing_by
  have := readChar_size h
  omega

theorem parseNodeLoop_peek_error {p : SGFParser} {e : String}
    (h : peekChar (skipWhitespace p) = .error e)
    (props : List (Str × List Str)) :
    parseNodeLoop p props = .error e := by
  rw [parseNodeLoop]
  split
  · next heq => rw [h] at heq; cases heq; rfl
  · next heq => rw [h] at heq; cases heq

theorem parseNodeLoop_stop {p p₂ : SGFParser} {ch : Char}
    (h : peekChar (skipWhitespace p) = .ok (ch, p₂))
    (hch : isLetterChar ch = false) (props : List (Str × List Str)) :
    parseNodeLoop p props = .ok (props, p₂) := by
  rw [parseNodeLoop]
  split
  · next heq => rw [h] at heq; cases heq
  · next heq =>
    rw [h] at heq; cases heq
    rw [dif_neg (by simp [hch])]

theorem parseNodeLoop_prop {p p₂ p₃ : SGFParser} {ch : Char}
    {pr : Str × List Str}
    (h : peekChar (skipWhitespace p) = .ok (ch, p₂))
    (hch : isLetterChar ch = true)
    (h₂ : parseProperty p₂ = .ok (pr, p₃)) (props : List (Str × List Str)) :
    parseNodeLoop p props = parseNodeLoop p₃ (setProp props pr.1 pr.2) := by
  rw [parseNodeLoop]
  split
  · next heq => rw [h] at heq; cases heq
  · next heq =>
    rw [h] at heq; cases heq
    rw [dif_pos hch]
    split
    · next heq₂ => rw [h₂] at heq₂; cases heq₂
    · next heq₂ => rw [h₂] at heq₂; cases heq₂; rfl

theorem parseNodeLoop_prop_error {p p₂ : SGFParser} {ch : Char} {e : String}
    (h : peekChar (skipWhitespace p) = .ok (ch, p₂))
    (hch : isLetterChar ch = true)
    (h₂ : parseProperty p₂ = .error e) (props : List (Str × List Str)) :
    parseNodeLoop p props = .error ("error parsing property: " ++ e) := by
  rw [parseNodeLoop]
  split
  · next heq => rw [h] at heq; cases heq
  · next heq =>
    rw [h] at heq; cases heq
    rw [dif_pos hch]
    split
    · next heq₂ => rw [h₂] at heq₂; cases heq₂; rfl
    · next heq₂ => rw [h₂] at heq₂; cases heq₂

theorem parseNodeLoop_size_le {p q : SGFParser}
    {props r : List (Str × List Str)}
    (h : parseNodeLoop p props = .ok (r, q)) : q.size ≤ p.size := by
  induction p, props using parseNodeLoop.induct with
  | case1 p props e hp =>
    rw [parseNodeLoop_peek_error hp] at h; cases h
  | case2 p props ch p₂ hp hch e h₂ =>
    rw [parseNodeLoop_prop_error hp (by simpa using hch) h₂] at h; cases h
  | case3 p props ch p₂ hp hch pr p₃ h₂ ih =>
    rw [parseNodeLoop_prop hp (by simpa using hch) h₂] at h
    have ha := skipWhitespace_size_le p
    have hb := peekChar_size hp
    have hst := peekChar_state hp
    have hlt := parseProperty_size_lt hst.2 (hst.1 ▸ (by simpa using hch)) h₂
    have := ih h
    omega
  | case4 p props ch p₂ hp hch =>
    rw [parseNodeLoop_stop hp (by simpa using hch)] at h
    cases h
    have ha := skipWhitespace_size_le p
    have hb := peekChar_size hp
    omega

theorem parseNode_ok_step {p p' : SGFParser} {ch : Char}
    (h : readChar p = .ok (ch, p')) :
    parseNode p =
      if ch = ';' then
        match parseNodeLoop p' [] with
        | .error e => .error e
        | .ok (props, p₂) => .ok (SGFNode.mk props [], p₂)
      else .error "expected ; at start of node" := by
  unfold parseNode
  split
  · next heq => rw [h] at heq; cases heq
  · next heq => rw [h] at heq; cases heq; rfl

theorem parseNode_error_step {p : SGFParser} {e : String}
    (h : readChar p = .error e) :
    parseNode p = .error "expected ; at start of node" := by
  unfold parseNode
  split
  · rfl
  · next heq => rw [h] at heq; cases heq

theorem parseNode_size_lt {p q : SGFParser} {node : SGFNode}
    (h : parseNode p = .ok (node, q)) : q.size < p.size := by
  cases hr : readChar p with
  | error e => rw [parseNode_error_step hr] at h; cases h
  | ok pr =>
    obtain ⟨ch, p'⟩ := pr
    rw [parseNode_ok_step hr] at h
    by_cases hc : ch = ';'
    · rw [if_pos hc] at h
      cases h₂ : parseNodeLoop p' [] with
      | error e => rw [h₂] at h; cases h
      | ok nr =>
        obtain ⟨props, p₂⟩ := nr
        rw [h₂] at h
        dsimp only at h
        cases h
        have := readChar_size hr
        have := parseNodeLoop_size_le h₂
        omega
    · rw [if_neg hc] at h; cases h

theorem skipVariationLoop_zero (p : SGFParser) :
    skipVariationLoop p 0 = .ok p := by
  rw [skipVariationLoop, if_pos rfl]

theorem skipVariationLoop_ok_step {p p' : SGFParser} {ch : Char}
    {depth : Nat} (hd : depth ≠ 0) (h : readChar p = .ok (ch, p')) :
    skipVariationLoop p depth =
      skipVariationLoop p'
        (if ch = '(' then depth + 1 else if ch = ')' then depth - 1 else depth) := by
  rw [skipVariationLoop, if_neg hd]
  split
  · next heq => rw [h] at heq; cases heq
  · next heq => rw [h] at heq; cases heq; rfl

theorem skipVariationLoop_error_step {p : SGFParser} {e : String}
    {depth : Nat} (hd : depth ≠ 0) (h : readChar p = .error e) :
    skipVariationLoop p depth = .error e := by
  rw [skipVariationLoop, if_neg hd]
  split
  · next heq => rw [h] at heq; cases heq; rfl
  · next heq => rw [h] at heq; cases heq

theorem skipVariationLoop_size_le {p q : SGFParser} {depth : Nat}
    (h : skipVariationLoop p depth = .ok q) : q.size ≤ p.size := by
  induction p, depth using skipVariationLoop.induct with
  | case1 p =>
    rw [skipVariationLoop_zero] at h
    cases h
    exact Nat.le_refl _
  | case2 p depth hd e hr =>
    rw [skipVariationLoop_error_step hd hr] at h; cases h
  | case3 p depth hd ch p' hr ih =>
    rw [skipVariationLoop_ok_step hd hr] at h
    have := readChar_size hr
    have := ih h
    omega

/-- The Go root/current chaining of `parseGame`: the first node whose
property map is non-empty becomes the root (earlier property-less nodes are
each overwritten), and every later node is appended as the single child of
the previous one. -/
def chainNode (n : SGFNode) (rest : List SGFNode) : SGFNode :=
  match rest with
  | [] => n
  | m :: ms => SGFNode.mk n.properties (n.children ++ [chainNode m ms])

/-- Assemble the node sequence of one game into the root node returned by
parser.go `parseGame`. -/
def buildRootChain (ns : List SGFNode) : SGFNode :=
  match ns with
  | [] => SGFNode.mk [] []
  | n :: rest => if n.properties = [] then buildRootChain rest else chainNode n rest

/-- parser.go `parseGame` main loop over `)` / `;` / `(` / anything else. -/
def parseGameLoop (p : SGFParser) (acc : List SGFNode) :
    Except String (SGFNode × SGFParser) :=
  match h : peekChar (skipWhitespace p) with
  | .error e => .error e
  | .ok (ch, p₂) =>
    if ch = ')' then .ok (buildRootChain acc, { p₂ with hasChar := false })
    else if ch = ';' then
      match h₂ : parseNode p₂ with
      | .error e => .error e
      | .ok (node, p₃) => parseGameLoop p₃ (acc ++ [node])
    else if ch = '(' then
      match h₃ : skipVariationLoop { p₂ with hasChar := false } 1 with
      | .error e => .error e
      | .ok p₄ => parseGameLoop p₄ acc
    else .error ("unexpected character in game tree: ".push ch)
termination_by p.size
decreasing_by
  · have ha := skipWhitespace_size_le p
    have hb := peekChar_size h
    have hst := peekChar_state h
    have hlt := parseNode_size_lt h₂
    omega
  · have ha := skipWhitespace_size_le p
    have hb := peekChar_size h
    have hst := peekChar_state h
    have hc : ({ p₂ with hasChar := false } : SGFParser).size + 1 = p₂.size := by
      simp [SGFParser.size, hst.2]
    have hd := skipVariationLoop_size_le h₃
    omega

theorem parseGameLoop_peek_error {p : SGFParser} {e : String}
    (h : peekChar (skipWhitespace p) = .error e) (acc : List SGFNode) :
    parseGameLoop p acc = .error e := by
  rw [parseGameLoop]
  split
  · next heq => rw [h] at heq; cases heq; rfl
  · next heq => rw [h] at heq; cases heq

theorem parseGameLoop_close {p p₂ : SGFParser}
    (h : peekChar (skipWhitespace p) = .ok (')', p₂)) (acc : List SGFNode) :
    parseGameLoop p acc = .ok (buildRootChain acc, { p₂ with hasChar := false }) := by
  rw [parseGameLoop]
  split
  · next heq => rw [h] at heq; cases heq
  · next heq => rw [h] at heq; cases heq; rw [if_pos rfl]

theorem parseGameLoop_node {p p₂ p₃ : SGFParser} {node : SGFNode}
    (h : peekChar (skipWhitespace p) = .ok (';', p₂))
    (h₂ : parseNode p₂ = .ok (node, p₃)) (acc : List SGFNode) :
    parseGameLoop p acc = parseGameLoop p₃ (acc ++ [node]) := by
  rw [parseGameLoop]
  split
  · next heq => rw [h] at heq; cases heq
  · next heq =>
    rw [h] at heq; cases heq
    rw [if_neg (by decide), if_pos rfl]
    split
    · next heq₂ => rw [h₂] at heq₂; cases heq₂
    · next heq₂ => rw [h₂] at heq₂; cases heq₂; rfl

theorem parseGameLoop_node_error {p p₂ : SGFParser} {e : String}
    (h : peekChar (skipWhitespace p) = .ok (';', p₂))
    (h₂ : parseNode p₂ = .error e) (acc : List SGFNode) :
    parseGameLoop p acc = .error e := by
  rw [parseGameLoop]
  split
  · next heq => rw [h] at heq; cases heq
  · next heq =>
    rw [h] at heq; cases heq
    rw [if_neg (by decide), if_pos rfl]
    split
    · next heq₂ => rw [h₂] at heq₂; cases heq₂; rfl
    · next heq₂ => rw [h₂] at heq₂; cases heq₂

theorem parseGameLoop_variation {p p₂ p₄ : SGFParser}
    (h : peekChar (skipWhitespace p) = .ok ('(', p₂))
    (h₃ : skipVariationLoop { p₂ with hasChar := false } 1 = .ok p₄)
    (acc : List SGFNode) :
    parseGameLoop p acc = parseGameLoop p₄ acc := by
  rw [parseGameLoop]
  split
  · next heq => rw [h] at heq; cases heq
  · next heq =>
    rw [h] at heq; cases heq
    rw [if_neg (by decide), if_neg (by decide), if_pos rfl]
    split
    · next heq₂ => rw [h₃] at heq₂; cases heq₂
    · next heq₂ => rw [h₃] at heq₂; cases heq₂; rfl

theorem parseGameLoop_unexpected {p p₂ : SGFParser} {ch : Char}
    (h : peekChar (skipWhitespace p) = .ok (ch, p₂))
    (h₁ : ch ≠ ')') (h₂ : ch ≠ ';') (h₃ : ch ≠ '(') (acc : List SGFNode) :
    parseGameLoop p acc =
      .error ("unexpected character in game tree: ".push ch) := by
  rw [parseGameLoop]
  split
  · next heq => rw [h] at heq; cases heq
  · next heq =>
    rw [h] at heq; cases heq
    rw [if_neg h₁, if_neg h₂, if_neg h₃]

theorem parseGameLoop_size_le {p q : SGFParser} {acc : List SGFNode}
    {node : SGFNode} (h : parseGameLoop p acc = .ok (node, q)) :
    q.size ≤ p.size := by
  induction p, acc using parseGameLoop.induct with
  | case1 p acc e hp =>
    rw [parseGameLoop_peek_error hp] at h; cases h
  | case2 p acc p₂ hp =>
    rw [parseGameLoop_close hp] at h
    cases h
    have ha := skipWhitespace_size_le p
    have hb := peekChar_size hp
    have hst := peekChar_state hp
    have h₁ : ({ p₂ with hasChar := false } : SGFParser).size = p₂.input.length := by
      simp [SGFParser.size]
    have h₂ : p₂.size = p₂.input.length + 1 := by
      simp [SGFParser.size, hst.2]
    omega
  | case3 p acc p₂ e herr hp hne =>
    rw [parseGameLoop_node_error hp herr] at h; cases h
  | case4 p acc p₂ node p₃ hok hp hne ih =>
    rw [parseGameLoop_node hp hok] at h
    have ha := skipWhitespace_size_le p
    have hb := peekChar_size hp
    have hlt := parseNode_size_lt hok
    have := ih h
    omega
  | case5 p acc p₂ e herr hp hne₁ hne₂ =>
    cases hv : skipVariationLoop { p₂ with hasChar := false } 1 with
    | error e' =>
      rw [parseGameLoop] at h
      split at h
      · next heq => rw [hp] at heq; cases heq
      · next heq =>
        rw [hp] at heq; cases heq
        rw [if_neg (by decide), if_neg (by decide), if_pos rfl] at h
        split at h
        · cases h
        · next heq₂ =>
          rw [hv] at heq₂; cases heq₂
    | ok p₄ =>
      rw [hv] at herr; cases herr
  | case6 p acc p₂ p₄ hok hp hne₁ hne₂ ih =>
    rw [parseGameLoop_variation hp hok] at h
    have ha := skipWhitespace_size_le p
    have hb := peekChar_size hp
    have hst := peekChar_state hp
    have hc : ({ p₂ with hasChar := false } : SGFParser).size + 1 = p₂.size := by
      simp [SGFParser.size, hst.2]
    have hd := skipVariationLoop_size_le hok
    have := ih h
    omega
  | case7 p acc ch p₂ hp h₁ h₂ h₃ =>
    rw [parseGameLoop_unexpected hp h₁ h₂ h₃] at h; cases h

/-- parser.go `parseGame`: expect `(`, then the node-sequence loop. -/
def parseGame (p : SGFParser) : Except String (SGFNode × SGFParser) :=
  match readChar p with
  | .error _ => .error "expected ( at start of game"
  | .ok (ch, p') =>
    if ch = '(' then parseGameLoop p' []
    else .error "expected ( at start of game"

theorem parseGame_ok_step {p p' : SGFParser} {ch : Char}
    (h : readChar p = .ok (ch, p')) :
    parseGame p =
      if ch = '(' then parseGameLoop p' []
      else .error "expected ( at start of game" := by
  unfold parseGame
  split
  · next heq => rw [h] at heq; cases heq
  · next heq => rw [h] at heq; cases heq; rfl

theorem parseGame_error_step {p : SGFParser} {e : String}
    (h : readChar p = .error e) :
    parseGame p = .error "expected ( at start of game" := by
  unfold parseGame
  split
  · rfl
  · next heq => rw [h] at heq; cases heq

theorem parseGame_size_lt {p q : SGFParser} {g : SGFNode}
    (h : parseGame p = .ok (g, q)) : q.size < p.size := by
  cases hr : readChar p with
  | error e => rw [parseGame_error_step hr] at h; cases h
  | ok pr =>
    obtain ⟨ch, p'⟩ := pr
    rw [parseGame_ok_step hr] at h
    by_cases hc : ch = '('
    · rw [if_pos hc] at h
      have := readChar_size hr
      have := parseGameLoop_size_le h
      omega
    · rw [if_neg hc] at h; cases h

/-- parser.go `parseGameTree` loop: parse `(`-opened games until the next
non-whitespace character is not `(`; `io.EOF` ends the loop, any other read
failure aborts. -/
def parseGameTreeLoop (p : SGFParser) (games : List SGFNode) :
    Except String (List SGFNode × SGFParser) :=
  match h : peekChar (skipWhitespace p) with
  | .error e =>
    if e = "EOF" then .ok (games, skipWhitespace p) else .error e
  | .ok (ch, p₂) =>
    if ch = '(' then
      match h₂ : parseGame p₂ with
      | .error e => .error e
      | .ok (g, p₃) => parseGameTreeLoop p₃ (games ++ [g])
    else .ok (games, p₂)
termination_by p.size
decreasing_by
  have ha := skipWhitespace_size_le p
  have hb := peekChar_size h
  have hc := parseGame_size_lt h₂
  omega

/-- parser.go `parseGameTree`. -/
def parseGameTree (p : SGFParser) : Except String (List SGFNode × SGFParser) :=
  parseGameTreeLoop p []

theorem parseGameTreeLoop_eof {p : SGFParser}
    (h : peekChar (skipWhitespace p) = .error "EOF") (games : List SGFNode) :
    parseGameTreeLoop p games = .ok (games, skipWhitespace p) := by
  rw [parseGameTreeLoop]
  split
  · next heq =>
    rw [h] at heq; cases heq
    rw [if_pos rfl]
  · next heq => rw [h] at heq; cases heq

theorem parseGameTreeLoop_game {p p₂ p₃ : SGFParser} {g : SGFNode}
    (h : peekChar (skipWhitespace p) = .ok ('(', p₂))
    (h₂ : parseGame p₂ = .ok (g, p₃)) (games : List SGFNode) :
    parseGameTreeLoop p games = parseGameTreeLoop p₃ (games ++ [g]) := by
  rw [parseGameTreeLoop]
  split
  · next heq => rw [h] at heq; cases heq
  · next heq =>
    rw [h] at heq; cases heq
    rw [if_pos rfl]
    split
    · next heq₂ => rw [h₂] at heq₂; cases heq₂
    · next heq₂ => rw [h₂] at heq₂; cases heq₂; rfl

theorem parseGameTreeLoop_game_error {p p₂ : SGFParser} {e : String}
    (h : peekChar (skipWhitespace p) = .ok ('(', p₂))
    (h₂ : parseGame p₂ = .error e) (games : List SGFNode) :
    parseGameTreeLoop p games = .error e := by
  rw [parseGameTreeLoop]
  split
  · next heq => rw [h] at heq; cases heq
  · next heq =>
    rw [h] at heq; cases heq
    rw [if_pos rfl]
    split
    · next heq₂ => rw [h₂] at heq₂; cases heq₂; rfl
    · next heq₂ => rw [h₂] at heq₂; cases heq₂

theorem parseGameTreeLoop_stop {p p₂ : SGFParser} {ch : Char}
    (h : peekChar (skipWhitespace p) = .ok (ch, p₂)) (hch : ch ≠ '(')
    (games : List SGFNode) :
    parseGameTreeLoop p games = .ok (games, p₂) := by
  rw [parseGameTreeLoop]
  split
  · next heq => rw [h] at heq; cases heq
  · next heq =>
    rw [h] at heq; cases heq
    rw [if_neg hch]

/-!
## Data model (types.go)
-/

/-- types.go `MoveType` constants. -/
inductive MoveType where
  | normal
  | double
  | take
  | drop
  | resign
  | setBoard
  | setDice
  | setCube
  | setCubePos
deriving Repr, DecidableEq

/-- types.go `Position`. `board` holds the two 25-slot checker-count rows. -/
structure Position where
  board : List Int × List Int
  cubeValue : Int
  cubeOwner : Int
  onRoll : Int
  dice : Int × Int
  score : Int × Int
  matchLength : Int
  crawford : Bool
deriving Repr, DecidableEq

/-- types.go `MoveOption`: one candidate move with its evaluation. -/
structure MoveOption where
  move : List Int
  moveString : Str
  equity : Rat
  player1WinRate : Rat
  player1GammonRate : Rat
  player1BackgammonRate : Rat
  player2WinRate : Rat
  player2GammonRate : Rat
  player2BackgammonRate : Rat
  analysisDepth : Int
deriving Repr, DecidableEq

/-- types.go `MoveAnalysis`. -/
structure MoveAnalysis where
  moves : List MoveOption
  selectedMove : Int
deriving Repr, DecidableEq

/-- types.go `CubeAnalysis`. -/
structure CubeAnalysis where
  player1WinRate : Rat
  player1GammonRate : Rat
  player1BackgammonRate : Rat
  player2WinRate : Rat
  player2GammonRate : Rat
  player2BackgammonRate : Rat
  cubelessEquity : Rat
  cubefulNoDouble : Rat
  cubefulDoubleTake : Rat
  cubefulDoublePass : Rat
  tooGoodPoint : Rat
  bestAction : Str
  wrongPassTakePercent : Rat
  analysisDepth : Int
deriving Repr, DecidableEq

/-- types.go `LuckRating`. -/
structure LuckRating where
  rating : Str
  value : Rat
deriving Repr, DecidableEq

/-- types.go `SkillRating`. -/
structure SkillRating where
  rating : Str
  error : Rat
deriving Repr, DecidableEq

/-- types.go `MoveRecord`. -/
structure MoveRecord where
  type : MoveType
  player : Int
  dice : Int × Int
  move : List Int
  moveString : Str
  cubeValue : Int
  cubeOwner : Int
  position : Option Position
  analysis : Option MoveAnalysis
  cubeAnalysis : Option CubeAnalysis
  luck : Option LuckRating
  skill : Option SkillRating
  comment : Str
deriving Repr, DecidableEq

/-- types.go `Game`. -/
structure Game where
  gameNumber : Int
  score : Int × Int
  variation : Str
  crawford : Bool
  crawfordGame : Bool
  jacoby : Bool
  cubeEnabled : Bool
  autoDoubles : Int
  winner : Int
  points : Int
  resigned : Bool
  moves : List MoveRecord
  gameComment : Str
deriving Repr, DecidableEq

/-- types.go `MatchMetadata`. -/
structure MatchMetadata where
  player1 : Str
  player2 : Str
  rating1 : Str
  rating2 : Str
  matchLength : Int
  event : Str
  round : Str
  place : Str
  date : Str
  annotator : Str
  comment : Str
  application : Str
deriving Repr, DecidableEq

/-- types.go `Match`. -/
structure Match where
  metadata : MatchMetadata
  games : List Game
deriving Repr, DecidableEq

/-- Go zero value of `MoveRecord` (arrays zero-filled). -/
def emptyMoveRecord : MoveRecord :=
  { type := .normal, player := 0, dice := (0, 0), move := List.replicate 8 0,
    moveString := [], cubeValue := 0, cubeOwner := 0, position := none,
    analysis := none, cubeAnalysis := none, luck := none, skill := none,
    comment := [] }

/-- Go zero value of `MoveOption`. -/
def emptyMoveOption : MoveOption :=
  { move := List.replicate 8 0, moveString := [], equity := 0,
    player1WinRate := 0, player1GammonRate := 0, player1BackgammonRate := 0,
    player2WinRate := 0, player2GammonRate := 0, player2BackgammonRate := 0,
    analysisDepth := 0 }

/-- Go zero value of `CubeAnalysis`. -/
def emptyCubeAnalysis : CubeAnalysis :=
  { player1WinRate := 0, player1GammonRate := 0, player1BackgammonRate := 0,
    player2WinRate := 0, player2GammonRate := 0, player2BackgammonRate := 0,
    cubelessEquity := 0, cubefulNoDouble := 0, cubefulDoubleTake := 0,
    cubefulDoublePass := 0, tooGoodPoint := 0, bestAction := [],
    wrongPassTakePercent := 0, analysisDepth := 0 }

/-- Go zero value of `Position`. -/
def emptyPosition : Position :=
  { board := (List.replicate 25 0, List.replicate 25 0), cubeValue := 0,
    cubeOwner := 0, onRoll := 0, dice := (0, 0), score := (0, 0),
    matchLength := 0, crawford := false }

/-- converter.go's initial `Game` value (`CubeEnabled: true`, rest zero). -/
def initialGame : Game :=
  { gameNumber := 0, score := (0, 0), variation := [], crawford := false,
    crawfordGame := false, jacoby := false, cubeEnabled := true,
    autoDoubles := 0, winner := 0, points := 0, resigned := false,
    moves := [], gameComment := [] }

/-- Go zero value of `MatchMetadata`. -/
def emptyMatchMetadata : MatchMetadata :=
  { player1 := [], player2 := [], rating1 := [], rating2 := [],
    matchLength := 0, event := [], round := [], place := [], date := [],
    annotator := [], comment := [], application := [] }

/-!
## Property helpers (parser.go: getProperty and friends)
-/

/-- parser.go `getProperty`: first value of the property, or "". -/
def getProperty (node : SGFNode) (name : Str) : Str :=
  match getPropEntry node.properties name with
  | some (v :: _) => v
  | _ => []

/-- parser.go `hasProperty`. -/
def hasProperty (node : SGFNode) (name : Str) : Bool :=
  (getPropEntry node.properties name).isSome

/-- parser.go `getPropertyInt` (0 on missing or unparseable). -/
def getPropertyInt (node : SGFNode) (name : Str) : Int :=
  parseAtoiOr0 (getProperty node name)

/-!
## Move encoding and rendering (converter.go decodePoint/parseEncodedMove,
types.go FormatMove/pointToString)
-/

/-- converter.go `decodePoint`: `a`-`x` are points 0-23, `y` the bar (24),
`z` off (25); anything else −1. -/
def decodePoint (ch : Char) : Int :=
  if 'a' ≤ ch ∧ ch ≤ 'x' then (ch.toNat : Int) - 97
  else if ch = 'y' then 24
  else if ch = 'z' then 25
  else -1

/-- types.go `pointToString`: 24 → "bar", 25 → "off", otherwise the letter
at offset `point` from `a` (like Go's `string(rune('a'+point))`). -/
def pointToString (point : Int) : Str :=
  if point = 24 then str "bar"
  else if point = 25 then str "off"
  else [Char.ofNat ('a'.toNat + point).toNat]

/-- types.go `FormatMove`'s loop over the (from, to) pairs of the 8-slot
array: stop at the −1 terminator, join pair strings with spaces, and mirror
the board (`23 − point`) when the player is side 1. -/
def FormatMove (move : List Int) (player : Int) : Str :=
  if move.getD 0 (-1) = -1 then str "no move"
  else
    let pairs := [(move.getD 0 (-1), move.getD 1 (-1)),
                  (move.getD 2 (-1), move.getD 3 (-1)),
                  (move.getD 4 (-1), move.getD 5 (-1)),
                  (move.getD 6 (-1), move.getD 7 (-1))]
    let used := pairs.takeWhile (fun pr => pr.1 != -1)
    List.intercalate (str " ")
      (used.map (fun pr =>
        let f := if player = 1 then 23 - pr.1 else pr.1
        let t := if player = 1 then 23 - pr.2 else pr.2
        pointToString f ++ str "/" ++ pointToString t))

/-- converter.go `parseEncodedMove` loop: decode letter pairs into the move
array, at most 4 pairs (`moveIdx < 8`). -/
def parseEncodedMoveLoop : List Char → List Int → Nat → List Int × Nat
  | c1 :: c2 :: rest, move, moveIdx =>
    if moveIdx < 8 then
      parseEncodedMoveLoop rest
        ((move.set moveIdx (decodePoint c1)).set (moveIdx + 1) (decodePoint c2))
        (moveIdx + 2)
    else (move, moveIdx)
  | _, move, moveIdx => (move, moveIdx)

/-- The move array produced by converter.go `parseEncodedMove` from an
encoded string, starting from an existing array: pairs, then a single −1
terminator if fewer than 4 pairs were written. -/
def parseEncodedMoveArr (encoded : Str) (move0 : List Int) : List Int :=
  let r := parseEncodedMoveLoop encoded move0 0
  if r.2 < 8 then r.1.set r.2 (-1) else r.1

/-- converter.go `parseEncodedMove`: fill `mr.move` and render
`mr.moveString` with `FormatMove`. -/
def parseEncodedMove (encoded : Str) (mr : MoveRecord) : MoveRecord :=
  let move := parseEncodedMoveArr encoded mr.move
  { mr with move := move, moveString := FormatMove move mr.player }

/-- converter.go `parseEncodedMoveOption` (same loop, rendered with player
0 since "player doesn't matter for display"). -/
def parseEncodedMoveOption (encoded : Str) (opt : MoveOption) : MoveOption :=
  let move := parseEncodedMoveArr encoded opt.move
  { opt with move := move, moveString := FormatMove move 0 }

/-!
## Analysis decoding (converter.go parseMoveAnalysis / parseCubeAnalysis /
parseLuck / parseSkill)
-/

/-- One iteration of converter.go `parseMoveAnalysis`'s row loop: rows with
fewer than 10 whitespace tokens are skipped (`continue`, here `none`);
otherwise tokens [4..8] become the five win/gammon/backgammon
probabilities, token [9] the equity, and the opponent total-win rate is
`1.0 - Player1WinRate`. -/
def parseMoveAnalysisRow (plyDepth : Int) (aStr : Str) : Option MoveOption :=
  let parts := fields aStr
  if parts.length < 10 then none
  else
    let opt := emptyMoveOption
    let opt :=
      if 2 ≤ (parts.getD 0 []).length then
        parseEncodedMoveOption (parts.getD 0 []) opt
      else opt
    let p1 := parseFloatOr0 (parts.getD 4 [])
    some { opt with
      player1WinRate := p1
      player1GammonRate := parseFloatOr0 (parts.getD 5 [])
      player1BackgammonRate := parseFloatOr0 (parts.getD 6 [])
      player2GammonRate := parseFloatOr0 (parts.getD 7 [])
      player2BackgammonRate := parseFloatOr0 (parts.getD 8 [])
      equity := parseFloatOr0 (parts.getD 9 [])
      player2WinRate := 1 - p1
      analysisDepth := plyDepth }

/-- converter.go `parseMoveAnalysis`: optional leading bare-integer ply
token, then one `MoveOption` per surviving row. -/
def parseMoveAnalysis (node : SGFNode) (mr : MoveRecord) : MoveRecord :=
  let analysisStrs := (getPropEntry node.properties (str "A")).getD []
  if analysisStrs = [] then mr
  else
    let pr : Int × List Str :=
      match analysisStrs with
      | first :: rest =>
        match parseAtoi (trimSpace first) with
        | some d => (d, rest)
        | none => (0, analysisStrs)
      | [] => (0, analysisStrs)
    { mr with
      analysis :=
        some ({ moves := pr.2.filterMap (parseMoveAnalysisRow pr.1),
                selectedMove := 0 } : MoveAnalysis) }

/-- converter.go `parseCubeAnalysis`: only `daStrs[0]` is read; needs at
least 13 tokens; probabilities at [7..11] (own win, opponent win, opponent
gammon, own gammon, own backgammon), cubeless equity at [12], and the
cubeful no-double equity at [13] only when at least 16 tokens exist.  The
double-take and double-pass cubeful equities are never assigned. -/
def parseCubeAnalysis (node : SGFNode) (mr : MoveRecord) : MoveRecord :=
  let daStrs := (getPropEntry node.properties (str "DA")).getD []
  match daStrs with
  | [] => mr
  | d :: _ =>
    let parts := fields d
    if parts.length < 13 then mr
    else
      let ca := { emptyCubeAnalysis with
        player1WinRate := parseFloatOr0 (parts.getD 7 [])
        player2WinRate := parseFloatOr0 (parts.getD 8 [])
        player2GammonRate := parseFloatOr0 (parts.getD 9 [])
        player1GammonRate := parseFloatOr0 (parts.getD 10 [])
        player1BackgammonRate := parseFloatOr0 (parts.getD 11 [])
        cubelessEquity := parseFloatOr0 (parts.getD 12 []) }
      let ca :=
        if 16 ≤ parts.length then
          { ca with cubefulNoDouble := parseFloatOr0 (parts.getD 13 []) }
        else ca
      let ca := { ca with analysisDepth := parseAtoiOr0 (parts.getD 2 []) }
      let ca : CubeAnalysis :=
        match mr.type with
        | .double =>
          if ca.cubefulNoDouble < ca.cubefulDoubleTake then
            { ca with bestAction := str "double" }
          else { ca with bestAction := str "no_double" }
        | .take | .drop =>
          if ca.cubefulDoublePass < ca.cubefulDoubleTake then
            { ca with bestAction := str "take" }
          else { ca with bestAction := str "pass" }
        | _ => ca
      { mr with cubeAnalysis := some ca }

/-- converter.go `parseLuck`. -/
def parseLuck (node : SGFNode) (mr : MoveRecord) : MoveRecord :=
  let luStr := getProperty node (str "LU")
  if luStr = [] then mr
  else
    let parts := fields luStr
    if parts.length < 2 then mr
    else
      { mr with
        luck :=
          some ({ rating := parts.getD 0 [],
                  value := parseFloatOr0 (parts.getD 1 []) } : LuckRating) }

/-- converter.go `parseSkill`. -/
def parseSkill (node : SGFNode) (mr : MoveRecord) : MoveRecord :=
  let skStr := getProperty node (str "SK")
  if skStr = [] then mr
  else
    let parts := fields skStr
    if parts.length < 2 then mr
    else
      { mr with
        skill :=
          some ({ rating := parts.getD 0 [],
                  error := parseFloatOr0 (parts.getD 1 []) } : SkillRating) }

/-!
## Move/node processing (converter.go processMove / processSetBoard /
processNode)
-/

/-- converter.go `processMove`: classify double/take/drop(pass) keywords,
otherwise a normal move whose first two characters are the dice and whose
remainder is the encoded move; then attach A/DA/LU/SK payloads. -/
def processMove (node : SGFNode) (game : Game) (player : Int) (moveStr : Str)
    (comment : Str) : Game :=
  let mr := { emptyMoveRecord with player := player, comment := comment }
  let mr :=
    if moveStr = str "double" then { mr with type := .double }
    else if moveStr = str "take" then { mr with type := .take }
    else if moveStr = str "drop" ∨ moveStr = str "pass" then
      { mr with type := .drop }
    else
      let mr := { mr with type := .normal }
      if 2 ≤ moveStr.length then
        let mr := { mr with dice :=
          (parseAtoiOr0 [moveStr.getD 0 ' '], parseAtoiOr0 [moveStr.getD 1 ' ']) }
        if 2 < moveStr.length then parseEncodedMove (moveStr.drop 2) mr else mr
      else mr
  let mr := if hasProperty node (str "A") then parseMoveAnalysis node mr else mr
  let mr := if hasProperty node (str "DA") then parseCubeAnalysis node mr else mr
  let mr := if hasProperty node (str "LU") then parseLuck node mr else mr
  let mr := if hasProperty node (str "SK") then parseSkill node mr else mr
  { game with moves := game.moves ++ [mr] }

/-- converter.go `processSetBoard`: accumulate checker counts from the AW
and AB point lists and read the optional PL (player on roll) flag. -/
def processSetBoard (node : SGFNode) (game : Game) (comment : Str) : Game :=
  let addPoints : List Str → List Int → List Int := fun pts b0 =>
    pts.foldl (fun b point =>
      match point with
      | [c] =>
        let pt := decodePoint c
        if 0 ≤ pt ∧ pt < 25 then b.set pt.toNat (b.getD pt.toNat 0 + 1) else b
      | _ => b) b0
  let b0 := addPoints ((getPropEntry node.properties (str "AW")).getD [])
    (List.replicate 25 0)
  let b1 := addPoints ((getPropEntry node.properties (str "AB")).getD [])
    (List.replicate 25 0)
  let pl := getProperty node (str "PL")
  let onRoll : Int :=
    if pl = [] then 0
    else if pl = str "W" ∨ pl = str "w" then 0
    else 1
  let pos := { emptyPosition with board := (b0, b1), onRoll := onRoll }
  let mr := { emptyMoveRecord with
    type := .setBoard, position := some pos, comment := comment }
  { game with moves := game.moves ++ [mr] }

/-- converter.go `processNode`: B/W checker moves take precedence, then
board setup, then cube value / cube position / dice-set records.  (For DI
records Go calls `parseLuck` on a local copy after the record has already
been appended, so the luck payload is lost; the appended record accordingly
carries none.) -/
def processNode (node : SGFNode) (game : Game) : Game :=
  let comment := getProperty node (str "C")
  let bMove := getProperty node (str "B")
  if bMove ≠ [] then processMove node game 1 bMove comment
  else
    let wMove := getProperty node (str "W")
    if wMove ≠ [] then processMove node game 0 wMove comment
    else if hasProperty node (str "AE") ∨ hasProperty node (str "AW") ∨
        hasProperty node (str "AB") then
      processSetBoard node game comment
    else
      let game :=
        if hasProperty node (str "CV") then
          let mr := { emptyMoveRecord with
            type := .setCube, cubeValue := getPropertyInt node (str "CV"),
            comment := comment }
          { game with moves := game.moves ++ [mr] }
        else game
      let game :=
        let cp := getProperty node (str "CP")
        if cp ≠ [] then
          let mr := { emptyMoveRecord with
            type := .setCubePos, comment := comment }
          let mr :=
            if cp = str "c" then { mr with cubeOwner := -1 }
            else if cp = str "w" then { mr with cubeOwner := 0 }
            else if cp = str "b" then { mr with cubeOwner := 1 }
            else mr
          { game with moves := game.moves ++ [mr] }
        else game
      let game :=
        let di := getProperty node (str "DI")
        if di ≠ [] ∧ 2 ≤ di.length then
          let mr := { emptyMoveRecord with
            type := .setDice,
            dice := (parseAtoiOr0 [di.getD 0 ' '], parseAtoiOr0 [di.getD 1 ' ']),
            comment := comment }
          { game with moves := game.moves ++ [mr] }
        else game
      game

/-!
## Metadata extraction (converter.go extractMetadata / parseMatchInfo /
parseRules / parseResult) and the conversion pipeline
-/

/-- converter.go `parseMatchInfo`: split the `[k:v][k2:v2]` composite on
`][`, trim brackets, split each part at the first colon, and apply the
recognised keys. -/
def parseMatchInfo (mi : Str) (meta : MatchMetadata) (game : Game) :
    MatchMetadata × Game :=
  (splitBracketPair mi).foldl
    (fun (acc : MatchMetadata × Game) part =>
      let part := trimSet (str "[]") part
      let kv := splitN2Colon part
      if kv.length ≠ 2 then acc
      else
        let key := kv.getD 0 []
        let value := kv.getD 1 []
        if key = str "length" then
          match parseAtoi value with
          | some v => ({ acc.1 with matchLength := v }, acc.2)
          | none => acc
        else if key = str "game" then
          match parseAtoi value with
          | some v => (acc.1, { acc.2 with gameNumber := v })
          | none => acc
        else if key = str "ws" then
          match parseAtoi value with
          | some v => (acc.1, { acc.2 with score := (v, acc.2.score.2) })
          | none => acc
        else if key = str "bs" then
          match parseAtoi value with
          | some v => (acc.1, { acc.2 with score := (acc.2.score.1, v) })
          | none => acc
        else acc)
    (meta, game)

/-- converter.go `parseRules`: colon-separated tokens, defaulting the
variation to "Standard". -/
def parseRules (ru : Str) (game : Game) : Game :=
  let game :=
    (splitOn (fun c => c = ':') ru).foldl
      (fun g rule =>
        let rule := trimSpace rule
        if rule = str "Crawford" then { g with crawford := true }
        else if rule = str "CrawfordGame" then { g with crawfordGame := true }
        else if rule = str "Jacoby" then { g with jacoby := true }
        else if rule = str "NoCube" then { g with cubeEnabled := false }
        else if rule = str "Nackgammon" then
          { g with variation := str "Nackgammon" }
        else if rule = str "Hypergammon1" then
          { g with variation := str "Hypergammon1" }
        else if rule = str "Hypergammon2" then
          { g with variation := str "Hypergammon2" }
        else if rule = str "Hypergammon3" then
          { g with variation := str "Hypergammon3" }
        else g)
      game
  if game.variation = [] then { game with variation := str "Standard" }
  else game

/-- converter.go `parseResult`: `W+n` / `B+nR`. -/
def parseResult (re : Str) (game : Game) : Game :=
  if re.length < 3 then game
  else
    let game :=
      if re.getD 0 ' ' = 'W' then { game with winner := 0 }
      else if re.getD 0 ' ' = 'B' then { game with winner := 1 }
      else game
    let pointsStr := trimSuffixR (trimLeftPlus (re.drop 1))
    let game :=
      match parseAtoi pointsStr with
      | some points => { game with points := points }
      | none => game
    if hasSuffixR re then { game with resigned := true } else game

/-- converter.go `extractMetadata`, scalar-tag block: the eleven metadata
fields written directly from their properties (AP, player names and
ratings, event information, GC), in source order. -/
def extractScalarMeta (node : SGFNode) (meta : MatchMetadata) :
    MatchMetadata :=
  let ap := getProperty node (str "AP")
  let meta := if ap ≠ [] then { meta with application := ap } else meta
  let pw := getProperty node (str "PW")
  let meta := if pw ≠ [] then { meta with player1 := pw } else meta
  let pb := getProperty node (str "PB")
  let meta := if pb ≠ [] then { meta with player2 := pb } else meta
  let wr := getProperty node (str "WR")
  let meta := if wr ≠ [] then { meta with rating1 := wr } else meta
  let br := getProperty node (str "BR")
  let meta := if br ≠ [] then { meta with rating2 := br } else meta
  let ev := getProperty node (str "EV")
  let meta := if ev ≠ [] then { meta with event := ev } else meta
  let ro := getProperty node (str "RO")
  let meta := if ro ≠ [] then { meta with round := ro } else meta
  let pc := getProperty node (str "PC")
  let meta := if pc ≠ [] then { meta with place := pc } else meta
  let dt := getProperty node (str "DT")
  let meta := if dt ≠ [] then { meta with date := dt } else meta
  let an := getProperty node (str "AN")
  let meta := if an ≠ [] then { meta with annotator := an } else meta
  let gc := getProperty node (str "GC")
  if gc ≠ [] then { meta with comment := gc } else meta

/-- converter.go `extractMetadata` applied to the root node: scalar tags
into the match metadata, then MI into both, then RU/CV/RE into the
game. -/
def extractMetadata (node : SGFNode) (meta : MatchMetadata) (game : Game) :
    MatchMetadata × Game :=
  let meta := extractScalarMeta node meta
  let mi := getProperty node (str "MI")
  let mg := if mi ≠ [] then parseMatchInfo mi meta game else (meta, game)
  let meta := mg.1
  let game := mg.2
  let ru := getProperty node (str "RU")
  let game := if ru ≠ [] then parseRules ru game else game
  let cv := getProperty node (str "CV")
  let game :=
    if cv ≠ [] then { game with autoDoubles := getPropertyInt node (str "CV") }
    else game
  let re := getProperty node (str "RE")
  let game := if re ≠ [] then parseResult re game else game
  (meta, game)

/-- converter.go `convertGame`'s walk along the primary chain: process each
node, then follow the first child. -/
def convertGameLoop : SGFNode → Game → Game
  | .mk props children, g =>
    let g' := processNode (.mk props children) g
    match children with
    | c :: _ => convertGameLoop c g'
    | [] => g'

/-- converter.go `convertGame`: extract metadata from the root, then replay
the node chain.  Returns the game together with the updated match
metadata. -/
def convertGame (root : SGFNode) (meta : MatchMetadata) :
    Game × MatchMetadata :=
  let mg := extractMetadata root meta initialGame
  (convertGameLoop root mg.2, mg.1)

/-- converter.go `convertNodesToMatch`'s loop over the game trees,
threading the shared match metadata and appending one game per tree. -/
def convertGamesLoop : List SGFNode → MatchMetadata → List Game →
    MatchMetadata × List Game
  | [], meta, games => (meta, games)
  | n :: rest, meta, games =>
    let gm := convertGame n meta
    convertGamesLoop rest gm.2 (games ++ [gm.1])

/-- converter.go `convertNodesToMatch`. -/
def convertNodesToMatch (nodes : List SGFNode) : Except String Match :=
  if nodes.isEmpty then .error "no games found"
  else
    let mg := convertGamesLoop nodes emptyMatchMetadata []
    .ok { metadata := mg.1, games := mg.2 }

/-- A renderable property name: one or two ASCII letters. -/
def GoodName (n : Str) : Prop :=
  (n.length = 1 ∨ n.length = 2) ∧ ∀ c ∈ n, isLetterChar c = true

/-- Render one property as SGF text: name followed by bracketed values. -/
def renderProp (pr : Str × List Str) : Str :=
  pr.1 ++ pr.2.flatMap (fun v => '[' :: (v ++ [']']))

/-- Render a property list as SGF text. -/
def renderProps (ps : List (Str × List Str)) : Str := ps.flatMap renderProp

/-- A renderable property: good name, at least one value, all values free
of `]` and backslash. -/
def GoodProp (pr : Str × List Str) : Prop :=
  GoodName pr.1 ∧ pr.2 ≠ [] ∧ ∀ v ∈ pr.2, GoodVal v

/-- An ASCII letter is not whitespace and none of the grammar's special
characters. -/
theorem isLetterChar_facts {c : Char} (hc : isLetterChar c = true) :
    isSpaceChar c = false ∧ c ≠ '[' ∧ c ≠ ']' ∧ c ≠ '(' ∧ c ≠ ')' ∧
      c ≠ ';' := by
  have hc' : ('A' ≤ c ∧ c ≤ 'Z') ∨ ('a' ≤ c ∧ c ≤ 'z') := by
    simpa [isLetterChar] using hc
  rcases hc' with ⟨h1, h2⟩ | ⟨h1, h2⟩ <;>
    refine ⟨?_, ?_, ?_, ?_, ?_, ?_⟩ <;>
    first
      | (cases hsp : isSpaceChar c with
          | false => rfl
          | true =>
            exfalso
            have hx : c = ' ' ∨ c = '\t' ∨ c = '\n' ∨ c = '\r' := by
              simpa [isSpaceChar] using hsp
            rcases hx with rfl | rfl | rfl | rfl <;> revert h1 h2 <;> decide)
      | (rintro rfl; revert h1 h2; decide)

/-- A buffered state feeds the value loop exactly like the corresponding
unbuffered state. -/
theorem parsePropertyValuesLoop_stB (cs : List Char) (c x : Char)
    (vals : List Str) :
    parsePropertyValuesLoop (stB cs c) vals =
      parsePropertyValuesLoop (stS (c :: cs) x) vals := by
  rw [parsePropertyValuesLoop]
  conv_rhs => rw [parsePropertyValuesLoop]
  rw [skipWhitespace_stB cs c x]

/-- Running the value loop over rendered values `[v₁][v₂]…` collects them
all and stops at the first non-`[` character. -/
theorem parsePropertyValuesLoop_spec (vs : List Str)
    (hvs : ∀ v ∈ vs, GoodVal v) (r : Char) (hr₁ : isSpaceChar r = false)
    (hr₂ : r ≠ '[') :
    ∀ (acc : List Str) (cs : List Char) (c₀ : Char),
    parsePropertyValuesLoop
      (stS ((vs.flatMap (fun v => '[' :: (v ++ [']']))) ++ r :: cs) c₀) acc =
      .ok (acc ++ vs, stB cs r) := by
  induction vs with
  | nil =>
    intro acc cs c₀
    simp only [List.flatMap_nil, List.nil_append]
    rw [parsePropertyValuesLoop_stop
      (by rw [skipWhitespace_cons_nws cs c₀ hr₁]; exact peekChar_stB cs r) hr₂]
    simp
  | cons v vs ih =>
    intro acc cs c₀
    simp only [List.flatMap_cons, List.cons_append, List.append_assoc]
    rw [@parsePropertyValuesLoop_val _
      (stB (v ++ (']' :: (vs.flatMap (fun v => '[' :: (v ++ [']'])) ++ r :: cs))) '[') _ _
      (by rw [skipWhitespace_cons_nws _ c₀ (by decide)]
          exact peekChar_stB _ '[')
      (by simpa using parsePropertyValue_spec_stB v (hvs v (by simp)) _) _]
    rw [ih (fun w hw => hvs w (by simp [hw])) (acc ++ [v]) cs ']']
    simp

/-- parser.go `parseProperty` on a rendered property followed by a
non-space, non-`[` character: returns the name with its values and leaves
that character buffered. -/
theorem parseProperty_spec (n : Str) (vs : List Str) (hn : GoodName n)
    (hvs₀ : vs ≠ []) (hvs : ∀ v ∈ vs, GoodVal v) (r : Char)
    (hr₁ : isSpaceChar r = false) (hr₂ : r ≠ '[') (cs : List Char)
    (c : Char) (n' : Str) (hsplit : n = c :: n') :
    parseProperty
      (stB (n' ++ (vs.flatMap (fun v => '[' :: (v ++ [']']))) ++ r :: cs) c) =
      .ok ((n, vs), stB cs r) := by
  obtain ⟨hlen, hletters⟩ := hn
  have hc : isLetterChar c = true := hletters c (by simp [hsplit])
  subst hsplit
  cases n' with
  | nil =>
    obtain ⟨v₁, vs', rfl⟩ : ∃ v₁ vs', vs = v₁ :: vs' := by
      cases vs with
      | nil => exact absurd rfl hvs₀
      | cons a b => exact ⟨a, b, rfl⟩
    have h₁ : parsePropertyNameLoop
        (stB (([] : Str) ++ (v₁ :: vs').flatMap (fun v => '[' :: (v ++ [']'])) ++ r :: cs) c) [] =
        .ok ([c], stB ((v₁ ++ [']']) ++ (vs'.flatMap (fun v => '[' :: (v ++ [']'])) ++ r :: cs)) '[') := by
      rw [parsePropertyNameLoop_ok_step (readChar_stB _ c), if_pos hc]
      simp only [List.nil_append, List.length_singleton]
      rw [if_neg (by omega)]
      simp only [List.flatMap_cons, List.cons_append, List.append_assoc]
      rw [parsePropertyNameLoop_ok_step (readChar_stS_cons '[' _ c),
        if_neg (by decide)]
      rfl
    rw [parseProperty_ok h₁ ?_]
    rw [parsePropertyValuesLoop_stB _ _ c]
    have := parsePropertyValuesLoop_spec (v₁ :: vs') hvs r hr₁ hr₂ [] cs c
    simpa [List.append_assoc] using this
  | cons c₂ n'' =>
    have hc₂ : isLetterChar c₂ = true := hletters c₂ (by simp)
    have hn'' : n'' = [] := by
      have : n''.length = 0 := by
        rcases hlen with hl | hl <;>
          (simp only [List.length_cons] at hl; omega)
      exact List.eq_nil_of_length_eq_zero this
    subst hn''
    have h₁ : parsePropertyNameLoop
        (stB ([c₂] ++ (vs.flatMap (fun v => '[' :: (v ++ [']'])) ++ r :: cs)) c) [] =
        .ok ([c, c₂], stS (vs.flatMap (fun v => '[' :: (v ++ [']'])) ++ r :: cs) c₂) := by
      rw [parsePropertyNameLoop_ok_step (readChar_stB _ c), if_pos hc]
      simp only [List.nil_append, List.length_singleton]
      rw [if_neg (by omega)]
      simp only [List.cons_append, List.nil_append]
      rw [parsePropertyNameLoop_ok_step (readChar_stS_cons c₂ _ c), if_pos hc₂]
      rw [if_pos (by simp)]
      simp
    rw [parseProperty_ok (by simpa [List.append_assoc] using h₁)
      (parsePropertyValuesLoop_spec vs hvs r hr₁ hr₂ [] cs c₂)]
    simp

/-- A buffered state feeds the node loop exactly like the corresponding
unbuffered state. -/
theorem parseNodeLoop_stB (cs : List Char) (c x : Char)
    (props : List (Str × List Str)) :
    parseNodeLoop (stB cs c) props = parseNodeLoop (stS (c :: cs) x) props := by
  rw [parseNodeLoop]
  conv_rhs => rw [parseNodeLoop]
  rw [skipWhitespace_stB cs c x]

/-- parser.go `parseNode`'s property loop over a rendered property list:
every property is read in order and assigned into the map with `setProp`
(later assignments replacing earlier ones), stopping at the terminator. -/
theorem parseNodeLoop_spec (ps : List (Str × List Str))
    (hps : ∀ pr ∈ ps, GoodProp pr) (r : Char) (hr₁ : isSpaceChar r = false)
    (hr₂ : isLetterChar r = false) (hr₃ : r ≠ '[') :
    ∀ (props : List (Str × List Str)) (cs : List Char) (c₀ : Char),
    parseNodeLoop (stS (renderProps ps ++ r :: cs) c₀) props =
      .ok (ps.foldl (fun m pr => setProp m pr.1 pr.2) props, stB cs r) := by
  induction ps with
  | nil =>
    intro props cs c₀
    simp only [renderProps, List.flatMap_nil, List.nil_append, List.foldl_nil]
    exact parseNodeLoop_stop
      (by rw [skipWhitespace_cons_nws cs c₀ hr₁]; exact peekChar_stB cs r)
      hr₂ props
  | cons pr ps ih =>
    intro props cs c₀
    obtain ⟨⟨hlen, hletters⟩, hvs₀, hvs⟩ := hps pr (by simp)
    obtain ⟨c, n', hsplit⟩ : ∃ c n', pr.1 = c :: n' := by
      cases hname : pr.1 with
      | nil => rw [hname] at hlen; simp at hlen
      | cons a b => exact ⟨a, b, rfl⟩
    have hc : isLetterChar c = true := hletters c (by simp [hsplit])
    have hfacts := isLetterChar_facts hc
    obtain ⟨t, ts, hts, ht₁, ht₂⟩ :
        ∃ t ts, renderProps ps ++ r :: cs = t :: ts ∧
          isSpaceChar t = false ∧ t ≠ '[' := by
      cases ps with
      | nil => exact ⟨r, cs, by simp [renderProps], hr₁, hr₃⟩
      | cons pr₂ ps' =>
        obtain ⟨⟨hlen₂, hletters₂⟩, hvs₀₂, hvs₂⟩ := hps pr₂ (by simp)
        obtain ⟨c₂, n₂, hsplit₂⟩ : ∃ a b, pr₂.1 = a :: b := by
          cases hname₂ : pr₂.1 with
          | nil => rw [hname₂] at hlen₂; simp at hlen₂
          | cons a b => exact ⟨a, b, rfl⟩
        have hc₂ : isLetterChar c₂ = true := hletters₂ c₂ (by simp [hsplit₂])
        have hf₂ := isLetterChar_facts hc₂
        refine ⟨c₂,
          n₂ ++ (pr₂.2.flatMap fun v => '[' :: (v ++ [']'])) ++
            (renderProps ps' ++ r :: cs), ?_, hf₂.1, hf₂.2.1⟩
        simp [renderProps, renderProp, hsplit₂, List.append_assoc]
    have hrender : renderProps (pr :: ps) ++ r :: cs =
        c :: (n' ++ (pr.2.flatMap fun v => '[' :: (v ++ [']'])) ++ (t :: ts)) := by
      rw [← hts]
      simp [renderProps, renderProp, hsplit, List.append_assoc]
    rw [hrender]
    rw [parseNodeLoop_prop
      (by rw [skipWhitespace_cons_nws _ c₀ hfacts.1]; exact peekChar_stB _ c)
      hc
      (parseProperty_spec pr.1 pr.2 ⟨hlen, hletters⟩ hvs₀ hvs t ht₁ ht₂ ts c
        n' hsplit)]
    rw [parseNodeLoop_stB ts t c₀, ← hts]
    rw [ih (fun q hq => hps q (by simp [hq])) (setProp props pr.1 pr.2) cs c₀]
    simp

/-- parser.go `parseNode` on `;` followed by rendered properties and a
terminator (entered with the `;` buffered, as `parseGame` does). -/
theorem parseNode_spec_stB (ps : List (Str × List Str))
    (hps : ∀ pr ∈ ps, GoodProp pr) (r : Char) (hr₁ : isSpaceChar r = false)
    (hr₂ : isLetterChar r = false) (hr₃ : r ≠ '[') (cs : List Char) :
    parseNode (stB (renderProps ps ++ r :: cs) ';') =
      .ok (SGFNode.mk
        (ps.foldl (fun m pr => setProp m pr.1 pr.2) []) [], stB cs r) := by
  rw [parseNode_ok_step (readChar_stB _ ';'), if_pos rfl]
  rw [parseNodeLoop_spec ps hps r hr₁ hr₂ hr₃ [] cs ';']

/-- parser.go `parseNode` on an unbuffered `;`-led node text. -/
theorem parseNode_spec_stS (ps : List (Str × List Str))
    (hps : ∀ pr ∈ ps, GoodProp pr) (r : Char) (hr₁ : isSpaceChar r = false)
    (hr₂ : isLetterChar r = false) (hr₃ : r ≠ '[') (cs : List Char)
    (c₀ : Char) :
    parseNode (stS (';' :: (renderProps ps ++ r :: cs)) c₀) =
      .ok (SGFNode.mk
        (ps.foldl (fun m pr => setProp m pr.1 pr.2) []) [], stB cs r) := by
  rw [parseNode_ok_step (readChar_stS_cons ';' _ c₀), if_pos rfl]
  rw [parseNodeLoop_spec ps hps r hr₁ hr₂ hr₃ [] cs ';']

/-- parser.go `ParseSGF`: parse the tree, reject empty input, convert. -/
def ParseSGF (input : List Char) : Except String Match :=
  match parseGameTree (stS input (Char.ofNat 0)) with
  | .error e => .error ("failed to parse SGF: " ++ e)
  | .ok (nodes, _) =>
    if nodes.isEmpty then .error "empty SGF file"
    else
      match convertNodesToMatch nodes with
      | .error e => .error ("failed to convert SGF to match: " ++ e)
      | .ok m => .ok m

/-!
## Claims
-/

/-- Claim C6: for every character `c` obtained from the character stream's
read operation, calling unread and then peek returns exactly `c`, and peek
leaves the state unchanged (does not consume it). -/
theorem C6_unread_then_peek (p p' : SGFParser) (c : Char)
    (h : readChar p = .ok (c, p')) :
    peekChar (unreadChar p') = .ok (c, unreadChar p') := by
  obtain ⟨hchar, hbuf⟩ := readChar_state h
  unfold peekChar unreadChar
  simp [hchar]

/-- Witness for C6 at a concrete read. -/
theorem C6_witness :
    peekChar (unreadChar (stS [] 'a')) = .ok ('a', unreadChar (stS [] 'a')) :=
  C6_unread_then_peek (stS ['a'] 'x') (stS [] 'a') 'a' rfl

/-- Claim C1: for every move-evaluation row with at least 10 whitespace
tokens, the converter stores tokens [4..8] as, in order, own total-win,
own gammon-win, own backgammon-win, opponent gammon-win, opponent
backgammon-win, stores token [9] as the signed equity, and sets the
opponent total-win probability to exactly 1 minus the parsed own
total-win. -/
theorem C1_move_eval_row (plyDepth : Int) (aStr : Str)
    (h : 10 ≤ (fields aStr).length) :
    ∃ opt : MoveOption,
      parseMoveAnalysisRow plyDepth aStr = some opt ∧
      opt.player1WinRate = parseFloatOr0 ((fields aStr).getD 4 []) ∧
      opt.player1GammonRate = parseFloatOr0 ((fields aStr).getD 5 []) ∧
      opt.player1BackgammonRate = parseFloatOr0 ((fields aStr).getD 6 []) ∧
      opt.player2GammonRate = parseFloatOr0 ((fields aStr).getD 7 []) ∧
      opt.player2BackgammonRate = parseFloatOr0 ((fields aStr).getD 8 []) ∧
      opt.equity = parseFloatOr0 ((fields aStr).getD 9 []) ∧
      opt.player2WinRate = 1 - opt.player1WinRate := by
  simp only [parseMoveAnalysisRow]
  rw [if_neg (by omega)]
  exact ⟨_, rfl, rfl, rfl, rfl, rfl, rfl, rfl, rfl⟩

/-- Witness for C1 on a real analysis row. -/
theorem C1_witness :
    ∃ opt : MoveOption,
      parseMoveAnalysisRow 0 (str "lpab E ver 3 0.496365 0.140890 0.006297 0.135264 0.005951 -0.004723") = some opt ∧
      opt.player1WinRate = parseFloatOr0 ((fields (str "lpab E ver 3 0.496365 0.140890 0.006297 0.135264 0.005951 -0.004723")).getD 4 []) ∧
      opt.player1GammonRate = parseFloatOr0 ((fields (str "lpab E ver 3 0.496365 0.140890 0.006297 0.135264 0.005951 -0.004723")).getD 5 []) ∧
      opt.player1BackgammonRate = parseFloatOr0 ((fields (str "lpab E ver 3 0.496365 0.140890 0.006297 0.135264 0.005951 -0.004723")).getD 6 []) ∧
      opt.player2GammonRate = parseFloatOr0 ((fields (str "lpab E ver 3 0.496365 0.140890 0.006297 0.135264 0.005951 -0.004723")).getD 7 []) ∧
      opt.player2BackgammonRate = parseFloatOr0 ((fields (str "lpab E ver 3 0.496365 0.140890 0.006297 0.135264 0.005951 -0.004723")).getD 8 []) ∧
      opt.equity = parseFloatOr0 ((fields (str "lpab E ver 3 0.496365 0.140890 0.006297 0.135264 0.005951 -0.004723")).getD 9 []) ∧
      opt.player2WinRate = 1 - opt.player1WinRate :=
  C1_move_eval_row 0 _ (by decide)

/-- Claim C5: a move-evaluation row with fewer than 10 whitespace tokens
yields no MoveOption and no error, and the remaining rows are processed as
if the short row were absent. -/
theorem C5_short_row_skipped (plyDepth : Int) (aStr : Str)
    (h : (fields aStr).length < 10) :
    parseMoveAnalysisRow plyDepth aStr = none ∧
    ∀ (pre post : List Str),
      (pre ++ aStr :: post).filterMap (parseMoveAnalysisRow plyDepth) =
        (pre ++ post).filterMap (parseMoveAnalysisRow plyDepth) := by
  have hnone : parseMoveAnalysisRow plyDepth aStr = none := by
    simp only [parseMoveAnalysisRow]
    rw [if_pos h]
  refine ⟨hnone, fun pre post => ?_⟩
  simp [List.filterMap_append, List.filterMap_cons, hnone]

/-- Witness for C5: a 3-token row is skipped and the rows around it are
still converted. -/
theorem C5_witness :
    parseMoveAnalysisRow 0 (str "lpab E ver") = none ∧
    ([str "x", str "lpab E ver"].filterMap (parseMoveAnalysisRow 0) =
      [str "x"].filterMap (parseMoveAnalysisRow 0)) := by
  refine ⟨(C5_short_row_skipped 0 (str "lpab E ver") (by decide)).1, ?_⟩
  have := (C5_short_row_skipped 0 (str "lpab E ver") (by decide)).2 [str "x"] []
  simpa using this

/-- Claim C2: cube-decision analysis uses only the first raw value row;
tokens [7..11] are stored as own win, opponent win, opponent gammon-win,
own gammon-win, own backgammon-win (a different order than the
move-evaluation row), token [12] as the cubeless equity, token [13] as the
cubeful no-double equity only when the row has at least 16 tokens, and the
double/take and double/pass cubeful equities stay zero. -/
theorem C2_cube_decision (node : SGFNode) (mr : MoveRecord) (d : Str)
    (rest : List Str)
    (hda : getPropEntry node.properties (str "DA") = some (d :: rest))
    (h13 : 13 ≤ (fields d).length) :
    (∃ ca : CubeAnalysis,
      (parseCubeAnalysis node mr).cubeAnalysis = some ca ∧
      ca.player1WinRate = parseFloatOr0 ((fields d).getD 7 []) ∧
      ca.player2WinRate = parseFloatOr0 ((fields d).getD 8 []) ∧
      ca.player2GammonRate = parseFloatOr0 ((fields d).getD 9 []) ∧
      ca.player1GammonRate = parseFloatOr0 ((fields d).getD 10 []) ∧
      ca.player1BackgammonRate = parseFloatOr0 ((fields d).getD 11 []) ∧
      ca.cubelessEquity = parseFloatOr0 ((fields d).getD 12 []) ∧
      ca.cubefulNoDouble =
        (if 16 ≤ (fields d).length then parseFloatOr0 ((fields d).getD 13 [])
         else 0) ∧
      ca.cubefulDoubleTake = 0 ∧ ca.cubefulDoublePass = 0) ∧
    (∀ (node₂ : SGFNode) (rest₂ : List Str),
      getPropEntry node₂.properties (str "DA") = some (d :: rest₂) →
      parseCubeAnalysis node₂ mr = parseCubeAnalysis node mr) := by
  constructor
  · simp only [parseCubeAnalysis, hda, Option.getD_some]
    rw [if_neg (by omega)]
    refine ⟨_, rfl, ?_, ?_, ?_, ?_, ?_, ?_, ?_, ?_, ?_⟩ <;>
      cases hmt : mr.type <;> dsimp only <;> (try split_ifs) <;> rfl
  · intro node₂ rest₂ hda₂
    simp only [parseCubeAnalysis, hda, hda₂, Option.getD_some]

/-- Witness for C2 on a real DA row (13 tokens), including the
first-row-only conjunct applied to a node with a second raw row. -/
theorem C2_witness :
    ((∃ ca : CubeAnalysis,
      (parseCubeAnalysis
        (SGFNode.mk [(str "DA", [str "E ver 3 2C 1 0.000000 1 0.503635 0.135264 0.005951 0.140890 0.006297 0.001137"])] [])
        emptyMoveRecord).cubeAnalysis = some ca ∧
      ca.player1WinRate = parseFloatOr0 ((fields (str "E ver 3 2C 1 0.000000 1 0.503635 0.135264 0.005951 0.140890 0.006297 0.001137")).getD 7 []) ∧
      ca.player2WinRate = parseFloatOr0 ((fields (str "E ver 3 2C 1 0.000000 1 0.503635 0.135264 0.005951 0.140890 0.006297 0.001137")).getD 8 []) ∧
      ca.player2GammonRate = parseFloatOr0 ((fields (str "E ver 3 2C 1 0.000000 1 0.503635 0.135264 0.005951 0.140890 0.006297 0.001137")).getD 9 []) ∧
      ca.player1GammonRate = parseFloatOr0 ((fields (str "E ver 3 2C 1 0.000000 1 0.503635 0.135264 0.005951 0.140890 0.006297 0.001137")).getD 10 []) ∧
      ca.player1BackgammonRate = parseFloatOr0 ((fields (str "E ver 3 2C 1 0.000000 1 0.503635 0.135264 0.005951 0.140890 0.006297 0.001137")).getD 11 []) ∧
      ca.cubelessEquity = parseFloatOr0 ((fields (str "E ver 3 2C 1 0.000000 1 0.503635 0.135264 0.005951 0.140890 0.006297 0.001137")).getD 12 []) ∧
      ca.cubefulNoDouble =
        (if 16 ≤ (fields (str "E ver 3 2C 1 0.000000 1 0.503635 0.135264 0.005951 0.140890 0.006297 0.001137")).length
         then parseFloatOr0 ((fields (str "E ver 3 2C 1 0.000000 1 0.503635 0.135264 0.005951 0.140890 0.006297 0.001137")).getD 13 [])
         else 0) ∧
      ca.cubefulDoubleTake = 0 ∧ ca.cubefulDoublePass = 0)) ∧
    parseCubeAnalysis
      (SGFNode.mk [(str "DA", [str "E ver 3 2C 1 0.000000 1 0.503635 0.135264 0.005951 0.140890 0.006297 0.001137", str "second row ignored"])] [])
      emptyMoveRecord =
    parseCubeAnalysis
      (SGFNode.mk [(str "DA", [str "E ver 3 2C 1 0.000000 1 0.503635 0.135264 0.005951 0.140890 0.006297 0.001137"])] [])
      emptyMoveRecord := by
  have h := C2_cube_decision
    (SGFNode.mk [(str "DA", [str "E ver 3 2C 1 0.000000 1 0.503635 0.135264 0.005951 0.140890 0.006297 0.001137"])] [])
    emptyMoveRecord
    (str "E ver 3 2C 1 0.000000 1 0.503635 0.135264 0.005951 0.140890 0.006297 0.001137")
    [] (by decide) (by decide)
  exact ⟨h.1, h.2 _ [str "second row ignored"] (by decide)⟩

/-- Claim C3 (code-bug evaluation): `pointToString` does render 24/25 as
the words bar/off, but `FormatMove` applies the side-1 mirror `23 − p` to
the bar/off codes as well, so a side-1 move from the bar renders as the
character at code 96 (the backtick) instead of the word bar, while the
same move for side 0 renders "bar/u". -/
theorem C3_bar_off_side1_bug :
    pointToString 24 = str "bar" ∧
    pointToString 25 = str "off" ∧
    FormatMove [24, 20, -1, 0, 0, 0, 0, 0] 0 = str "bar/u" ∧
    FormatMove [24, 20, -1, 0, 0, 0, 0, 0] 1 = [Char.ofNat 96, '/', 'd'] ∧
    FormatMove [24, 20, -1, 0, 0, 0, 0, 0] 1 ≠
      str "bar" ++ '/' :: pointToString (23 - 20) := by
  decide

/-- Counterexample for C9: converting the checker-move string "70aa"
produces a MoveRecord carrying dice (7, 0), and 7 is not in 1..6. -/
theorem C9_counterexample :
    ((processMove (SGFNode.mk [] []) initialGame 0 (str "70aa") []).moves.map
      (fun mr => mr.dice)) = [((7 : Int), (0 : Int))] ∧
    ¬(1 ≤ (7 : Int) ∧ (7 : Int) ≤ 6) := by
  decide

/-- A die character among 1-6 parses to a die value in 1..6. -/
theorem parseAtoiOr0_digit16 {c : Char} (hc : c ∈ str "123456") :
    1 ≤ parseAtoiOr0 [c] ∧ parseAtoiOr0 [c] ≤ 6 := by
  have he : str "123456" = ['1', '2', '3', '4', '5', '6'] := rfl
  rw [he] at hc
  simp only [List.mem_cons, List.not_mem_nil, or_false] at hc
  rcases hc with rfl | rfl | rfl | rfl | rfl | rfl <;> decide

theorem parseMoveAnalysis_dice (node : SGFNode) (mr : MoveRecord) :
    (parseMoveAnalysis node mr).dice = mr.dice := by
  simp only [parseMoveAnalysis]
  split <;> rfl

theorem parseCubeAnalysis_dice (node : SGFNode) (mr : MoveRecord) :
    (parseCubeAnalysis node mr).dice = mr.dice := by
  simp only [parseCubeAnalysis]
  split
  · rfl
  · split <;> rfl

theorem parseLuck_dice (node : SGFNode) (mr : MoveRecord) :
    (parseLuck node mr).dice = mr.dice := by
  simp only [parseLuck]
  split_ifs <;> rfl

theorem parseSkill_dice (node : SGFNode) (mr : MoveRecord) :
    (parseSkill node mr).dice = mr.dice := by
  simp only [parseSkill]
  split_ifs <;> rfl

theorem parseEncodedMove_dice (encoded : Str) (mr : MoveRecord) :
    (parseEncodedMove encoded mr).dice = mr.dice := rfl

/-- An optional record transformation that preserves the dice leaves the
dice unchanged. -/
theorem ite_dice (c : Prop) [Decidable c] (f : MoveRecord → MoveRecord)
    (hf : ∀ m, (f m).dice = m.dice) (m : MoveRecord) :
    (if c then f m else m).dice = m.dice := by
  split_ifs with h
  · exact hf m
  · rfl

/-- Claim C9, amended: the converter does not validate dice; it stores the
decimal value of each die character (0 when unparseable).  Both dice of a
converted record lie in 1..6 exactly when the two source die characters
are among the digits 1-6 — for a normal checker-move string (first part)
and for a DI dice-set record (second part). -/
theorem C9_dice_amended :
    (∀ (node : SGFNode) (game : Game) (player : Int) (moveStr comment : Str),
      moveStr ≠ str "double" → moveStr ≠ str "take" →
      moveStr ≠ str "drop" → moveStr ≠ str "pass" →
      2 ≤ moveStr.length →
      moveStr.getD 0 ' ' ∈ str "123456" → moveStr.getD 1 ' ' ∈ str "123456" →
      ∃ mr : MoveRecord,
        (processMove node game player moveStr comment).moves =
          game.moves ++ [mr] ∧
        1 ≤ mr.dice.1 ∧ mr.dice.1 ≤ 6 ∧ 1 ≤ mr.dice.2 ∧ mr.dice.2 ≤ 6) ∧
    (∀ (node : SGFNode) (game : Game),
      getProperty node (str "B") = [] → getProperty node (str "W") = [] →
      hasProperty node (str "AE") = false →
      hasProperty node (str "AW") = false →
      hasProperty node (str "AB") = false →
      2 ≤ (getProperty node (str "DI")).length →
      (getProperty node (str "DI")).getD 0 ' ' ∈ str "123456" →
      (getProperty node (str "DI")).getD 1 ' ' ∈ str "123456" →
      ∃ (mr : MoveRecord) (pre : List MoveRecord),
        (processNode node game).moves = pre ++ [mr] ∧ mr.type = .setDice ∧
        1 ≤ mr.dice.1 ∧ mr.dice.1 ≤ 6 ∧ 1 ≤ mr.dice.2 ∧ mr.dice.2 ≤ 6) := by
  constructor
  · intro node game player moveStr comment h1 h2 h3 h4 hlen hd0 hd1
    obtain ⟨b1l, b1u⟩ := parseAtoiOr0_digit16 hd0
    obtain ⟨b2l, b2u⟩ := parseAtoiOr0_digit16 hd1
    simp only [processMove]
    rw [if_neg h1, if_neg h2,
      if_neg (show ¬(moveStr = str "drop" ∨ moveStr = str "pass") by
        simp [h3, h4]),
      if_pos hlen]
    refine ⟨_, rfl, ?_, ?_, ?_, ?_⟩ <;>
      (simp only [ite_dice _ (parseSkill node) (parseSkill_dice node),
        ite_dice _ (parseLuck node) (parseLuck_dice node),
        ite_dice _ (parseCubeAnalysis node) (parseCubeAnalysis_dice node),
        ite_dice _ (parseMoveAnalysis node) (parseMoveAnalysis_dice node),
        ite_dice _ (parseEncodedMove (moveStr.drop 2))
          (parseEncodedMove_dice (moveStr.drop 2))]
       assumption)
  · intro node game hB hW hAE hAW hAB hlen hd0 hd1
    obtain ⟨b1l, b1u⟩ := parseAtoiOr0_digit16 hd0
    obtain ⟨b2l, b2u⟩ := parseAtoiOr0_digit16 hd1
    simp only [processNode]
    rw [if_neg (by simp [hB]), if_neg (by simp [hW]),
      if_neg (by simp [hAE, hAW, hAB]),
      if_pos (by exact ⟨by intro hnil; rw [hnil] at hlen; simp at hlen, hlen⟩)]
    exact ⟨_, _, rfl, rfl, b1l, b1u, b2l, b2u⟩

/-- Witness for C9 (amended) on the move string "52lpab" and a DI record
"31". -/
theorem C9_witness :
    (∃ mr : MoveRecord,
      (processMove (SGFNode.mk [] []) initialGame 0 (str "52lpab") []).moves =
        initialGame.moves ++ [mr] ∧
      1 ≤ mr.dice.1 ∧ mr.dice.1 ≤ 6 ∧ 1 ≤ mr.dice.2 ∧ mr.dice.2 ≤ 6) ∧
    (∃ (mr : MoveRecord) (pre : List MoveRecord),
      (processNode (SGFNode.mk [(str "DI", [str "31"])] []) initialGame).moves =
        pre ++ [mr] ∧ mr.type = .setDice ∧
      1 ≤ mr.dice.1 ∧ mr.dice.1 ≤ 6 ∧ 1 ≤ mr.dice.2 ∧ mr.dice.2 ≤ 6) :=
  ⟨C9_dice_amended.1 (SGFNode.mk [] []) initialGame 0 (str "52lpab") []
      (by decide) (by decide) (by decide) (by decide) (by decide) (by decide)
      (by decide),
    C9_dice_amended.2 (SGFNode.mk [(str "DI", [str "31"])] []) initialGame
      (by decide) (by decide) (by decide) (by decide) (by decide) (by decide)
      (by decide) (by decide)⟩

/-- Claim C10: when the same 1-2 letter property name occurs twice in one
node, the later occurrence's value list replaces the earlier one in the
node's property map; the earlier values are silently discarded (the
resulting map holds only the later binding). -/
theorem C10_duplicate_property (n v₁ v₂ : Str) (cs : List Char) (c₀ : Char)
    (hn : GoodName n) (hv₁ : GoodVal v₁) (hv₂ : GoodVal v₂) :
    parseNode
      (stS (';' :: (renderProps [(n, [v₁]), (n, [v₂])] ++ ')' :: cs)) c₀) =
      .ok (SGFNode.mk [(n, [v₂])] [], stB cs ')') := by
  have h := parseNode_spec_stS [(n, [v₁]), (n, [v₂])]
    (by
      intro pr hpr
      simp only [List.mem_cons, List.not_mem_nil, or_false] at hpr
      rcases hpr with rfl | rfl <;>
        exact ⟨hn, by simp, by
          intro v hv
          simp only [List.mem_singleton] at hv
          subst hv
          first | exact hv₁ | exact hv₂⟩)
    ')' (by decide) (by decide) (by decide) cs c₀
  rw [h]
  simp [setProp]

/-- Witness for C10: the node text `;PW[a]PW[b]` parses to a node whose
property map binds PW to ["b"] only. -/
theorem C10_witness :
    parseNode
      (stS (';' :: (renderProps [(str "PW", [str "a"]), (str "PW", [str "b"])]
        ++ ')' :: [])) 'x') =
      .ok (SGFNode.mk [(str "PW", [str "b"])] [], stB [] ')') :=
  C10_duplicate_property (str "PW") (str "a") (str "b") [] 'x'
    (by constructor
        · right; rfl
        · decide)
    (by intro c hc; simp [str] at hc; subst hc; decide)
    (by intro c hc; simp [str] at hc; subst hc; decide)

/-- Counterexample for C4 as stated: re-encoding the rendered string with
the repository's own decoder (`parseEncodedMove`/`decodePoint`) does not
reproduce the array, because the rendering inserts `/` separators (and
bar/off words) that `decodePoint` maps to −1.  Already the in-range,
−1-terminated array [5,3,-1,0,0,0,0,0] fails. -/
theorem C4_roundtrip_counterexample :
    parseEncodedMoveArr (FormatMove [5, 3, -1, 0, 0, 0, 0, 0] 0)
        (List.replicate 8 0) ≠ [5, 3, -1, 0, 0, 0, 0, 0] ∧
    parseEncodedMoveArr (FormatMove [5, 3, -1, 0, 0, 0, 0, 0] 0)
        (List.replicate 8 0) = [5, -1, -1, 0, 0, 0, 0, 0] := by
  decide

/-- Spec-side decoder for the amended C4: cut the rendered string at the
`/` and space separators the renderer inserts, decode the words bar/off to
24/25 and single letters with `decodePoint`, and re-encode the resulting
points pairwise the way `parseEncodedMove` builds its array. -/
def decodeCode (w : Str) : Int :=
  if w = str "bar" then 24
  else if w = str "off" then 25
  else
    match w with
    | [c] => decodePoint c
    | _ => -1

/-- Split a rendered move string into its point codes. -/
def splitCodes (s : Str) : List Str := splitOn (fun c => c = '/' ∨ c = ' ') s

/-- Group a point list into (from, to) pairs, dropping an odd leftover. -/
def chunkPairs : List Int → List (Int × Int)
  | a :: b :: rest => (a, b) :: chunkPairs rest
  | _ => []

/-- The canonical move array built from at most 4 pairs: the pairs, then a
single −1 terminator, then zero fill — exactly the shape
`parseEncodedMove` produces. -/
def mkMoveArr (ps : List (Int × Int)) : List Int :=
  let flat := (ps.take 4).flatMap (fun pr => [pr.1, pr.2])
  if flat.length < 8 then flat ++ [-1] ++ List.replicate (8 - flat.length - 1) 0
  else flat

/-- Decode a rendered move string back into a move array. -/
def decodeRenderedMove (s : Str) : List Int :=
  mkMoveArr (chunkPairs ((splitCodes s).map decodeCode))

theorem decodeCode_pointToString {p : Int} (h0 : 0 ≤ p) (h25 : p ≤ 25) :
    decodeCode (pointToString p) = p := by
  interval_cases p <;> decide

theorem pointToString_sep_free {p : Int} (h0 : 0 ≤ p) (h25 : p ≤ 25) :
    ∀ c ∈ pointToString p, (decide (c = '/' ∨ c = ' ') : Bool) = false := by
  interval_cases p <;> decide

theorem splitOnAux_sep (p : Char → Bool) {c : Char} (hc : p c = true) :
    ∀ (w : Str), (∀ x ∈ w, p x = false) → ∀ (rest cur : Str),
    splitOnAux p (w ++ c :: rest) cur = (cur ++ w) :: splitOnAux p rest [] := by
  intro w
  induction w with
  | nil =>
    intro _ rest cur
    simp only [List.nil_append, splitOnAux, hc, if_true, List.append_nil]
  | cons x w ih =>
    intro hw rest cur
    simp only [List.cons_append, splitOnAux, hw x (by simp),
      Bool.false_eq_true, if_false, List.append_eq]
    rw [ih (fun y hy => hw y (by simp [hy])) rest (cur ++ [x])]
    simp

theorem splitOnAux_nosep (p : Char → Bool) :
    ∀ (w : Str), (∀ x ∈ w, p x = false) → ∀ (cur : Str),
    splitOnAux p w cur = [cur ++ w] := by
  intro w
  induction w with
  | nil => intro _ cur; simp [splitOnAux]
  | cons x w ih =>
    intro hw cur
    simp only [splitOnAux, hw x (by simp), Bool.false_eq_true, if_false,
      List.append_eq]
    rw [ih (fun y hy => hw y (by simp [hy])) (cur ++ [x])]
    simp

/-- Claim C4, amended: the literal composition fails (see the
counterexample), but for every move array in the parser's canonical form —
up to 4 (from, to) pairs with both points in 0..25, a −1 terminator and
zero fill — rendered for side 0, splitting the rendered string at the
separators the renderer inserts and decoding the point codes (letters via
`decodePoint`, the words bar/off to 24/25) reproduces the original
array. -/
theorem C4_roundtrip_amended (ps : List (Int × Int)) (h1 : 1 ≤ ps.length)
    (h4 : ps.length ≤ 4)
    (hr : ∀ pr ∈ ps, 0 ≤ pr.1 ∧ pr.1 ≤ 25 ∧ 0 ≤ pr.2 ∧ pr.2 ≤ 25) :
    decodeRenderedMove (FormatMove (mkMoveArr ps) 0) = mkMoveArr ps := by
  rcases ps with _ | ⟨⟨a, b⟩, _ | ⟨⟨c, d⟩, _ | ⟨⟨e, f⟩, _ | ⟨⟨g, i⟩, _ | ⟨p₅, tl⟩⟩⟩⟩⟩
  · simp at h1
  · obtain ⟨h0a, h25a, h0b, h25b⟩ := hr (a, b) (by simp)
    have hm : mkMoveArr [(a, b)] = [a, b, -1, 0, 0, 0, 0, 0] := rfl
    have ha : ¬(a = -1) := by omega
    have hab : (a != -1) = true := by simp [bne_iff_ne]; omega
    have hfm : FormatMove (mkMoveArr [(a, b)]) 0 =
        pointToString a ++ '/' :: pointToString b := by
      rw [hm]
      simp [FormatMove, List.takeWhile, ha, hab, List.intercalate, str]
    rw [hfm]
    unfold decodeRenderedMove splitCodes splitOn
    rw [splitOnAux_sep _ (by decide) _ (pointToString_sep_free h0a h25a) _ _,
      splitOnAux_nosep _ _ (pointToString_sep_free h0b h25b) _]
    simp [decodeCode_pointToString, h0a, h25a, h0b, h25b, chunkPairs]
  · obtain ⟨h0a, h25a, h0b, h25b⟩ := hr (a, b) (by simp)
    obtain ⟨h0c, h25c, h0d, h25d⟩ := hr (c, d) (by simp)
    have hm : mkMoveArr [(a, b), (c, d)] = [a, b, c, d, -1, 0, 0, 0] := rfl
    have ha : ¬(a = -1) := by omega
    have hab : (a != -1) = true := by simp [bne_iff_ne]; omega
    have hcd : (c != -1) = true := by simp [bne_iff_ne]; omega
    have hfm : FormatMove (mkMoveArr [(a, b), (c, d)]) 0 =
        pointToString a ++ '/' ::
          (pointToString b ++ ' ' :: (pointToString c ++ '/' :: pointToString d)) := by
      rw [hm]
      simp [FormatMove, List.takeWhile, ha, hab, hcd, List.intercalate, str]
    rw [hfm]
    unfold decodeRenderedMove splitCodes splitOn
    rw [splitOnAux_sep _ (by decide) _ (pointToString_sep_free h0a h25a) _ _,
      splitOnAux_sep _ (by decide) _ (pointToString_sep_free h0b h25b) _ _,
      splitOnAux_sep _ (by decide) _ (pointToString_sep_free h0c h25c) _ _,
      splitOnAux_nosep _ _ (pointToString_sep_free h0d h25d) _]
    simp [decodeCode_pointToString, h0a, h25a, h0b, h25b, h0c, h25c, h0d, h25d,
      chunkPairs]
  · obtain ⟨h0a, h25a, h0b, h25b⟩ := hr (a, b) (by simp)
    obtain ⟨h0c, h25c, h0d, h25d⟩ := hr (c, d) (by simp)
    obtain ⟨h0e, h25e, h0f, h25f⟩ := hr (e, f) (by simp)
    have hm : mkMoveArr [(a, b), (c, d), (e, f)] = [a, b, c, d, e, f, -1, 0] := rfl
    have ha : ¬(a = -1) := by omega
    have hab : (a != -1) = true := by simp [bne_iff_ne]; omega
    have hcd : (c != -1) = true := by simp [bne_iff_ne]; omega
    have hef : (e != -1) = true := by simp [bne_iff_ne]; omega
    have hfm : FormatMove (mkMoveArr [(a, b), (c, d), (e, f)]) 0 =
        pointToString a ++ '/' ::
          (pointToString b ++ ' ' ::
            (pointToString c ++ '/' ::
              (pointToString d ++ ' ' ::
                (pointToString e ++ '/' :: pointToString f)))) := by
      rw [hm]
      simp [FormatMove, List.takeWhile, ha, hab, hcd, hef, List.intercalate, str]
    rw [hfm]
    unfold decodeRenderedMove splitCodes splitOn
    rw [splitOnAux_sep _ (by decide) _ (pointToString_sep_free h0a h25a) _ _,
      splitOnAux_sep _ (by decide) _ (pointToString_sep_free h0b h25b) _ _,
      splitOnAux_sep _ (by decide) _ (pointToString_sep_free h0c h25c) _ _,
      splitOnAux_sep _ (by decide) _ (pointToString_sep_free h0d h25d) _ _,
      splitOnAux_sep _ (by decide) _ (pointToString_sep_free h0e h25e) _ _,
      splitOnAux_nosep _ _ (pointToString_sep_free h0f h25f) _]
    simp [decodeCode_pointToString, h0a, h25a, h0b, h25b, h0c, h25c, h0d, h25d,
      h0e, h25e, h0f, h25f, chunkPairs]
  · obtain ⟨h0a, h25a, h0b, h25b⟩ := hr (a, b) (by simp)
    obtain ⟨h0c, h25c, h0d, h25d⟩ := hr (c, d) (by simp)
    obtain ⟨h0e, h25e, h0f, h25f⟩ := hr (e, f) (by simp)
    obtain ⟨h0g, h25g, h0i, h25i⟩ := hr (g, i) (by simp)
    have hm : mkMoveArr [(a, b), (c, d), (e, f), (g, i)] =
        [a, b, c, d, e, f, g, i] := rfl
    have ha : ¬(a = -1) := by omega
    have hab : (a != -1) = true := by simp [bne_iff_ne]; omega
    have hcd : (c != -1) = true := by simp [bne_iff_ne]; omega
    have hef : (e != -1) = true := by simp [bne_iff_ne]; omega
    have hgi : (g != -1) = true := by simp [bne_iff_ne]; omega
    have hfm : FormatMove (mkMoveArr [(a, b), (c, d), (e, f), (g, i)]) 0 =
        pointToString a ++ '/' ::
          (pointToString b ++ ' ' ::
            (pointToString c ++ '/' ::
              (pointToString d ++ ' ' ::
                (pointToString e ++ '/' ::
                  (pointToString f ++ ' ' ::
                    (pointToString g ++ '/' :: pointToString i)))))) := by
      rw [hm]
      simp [FormatMove, List.takeWhile, ha, hab, hcd, hef, hgi,
        List.intercalate, str]
    rw [hfm]
    unfold decodeRenderedMove splitCodes splitOn
    rw [splitOnAux_sep _ (by decide) _ (pointToString_sep_free h0a h25a) _ _,
      splitOnAux_sep _ (by decide) _ (pointToString_sep_free h0b h25b) _ _,
      splitOnAux_sep _ (by decide) _ (pointToString_sep_free h0c h25c) _ _,
      splitOnAux_sep _ (by decide) _ (pointToString_sep_free h0d h25d) _ _,
      splitOnAux_sep _ (by decide) _ (pointToString_sep_free h0e h25e) _ _,
      splitOnAux_sep _ (by decide) _ (pointToString_sep_free h0f h25f) _ _,
      splitOnAux_sep _ (by decide) _ (pointToString_sep_free h0g h25g) _ _,
      splitOnAux_nosep _ _ (pointToString_sep_free h0i h25i) _]
    simp [decodeCode_pointToString, h0a, h25a, h0b, h25b, h0c, h25c, h0d, h25d,
      h0e, h25e, h0f, h25f, h0g, h25g, h0i, h25i, chunkPairs]
  · exfalso
    simp only [List.length_cons] at h4
    omega

/-- Witness for C4 (amended) on the pair list [(24, 20), (5, 3)]
(a bar entry plus an ordinary move). -/
theorem C4_witness :
    decodeRenderedMove (FormatMove (mkMoveArr [(24, 20), (5, 3)]) 0) =
      mkMoveArr [(24, 20), (5, 3)] :=
  C4_roundtrip_amended [(24, 20), (5, 3)] (by decide) (by decide)
    (by intro pr hpr
        simp only [List.mem_cons, List.not_mem_nil, or_false] at hpr
        rcases hpr with rfl | rfl <;> decide)

theorem skipWhitespace_stB_nws {c : Char} (cs : List Char)
    (hc : isSpaceChar c = false) :
    skipWhitespace (stB cs c) = stB cs c :=
  skipWhitespace_nws (peekChar_stB cs c) hc

/-- parser.go `parseGame` on a single-node game body (entered with the `(`
buffered, as `parseGameTree` does). -/
theorem parseGame_single_node (ps : List (Str × List Str))
    (hps : ∀ pr ∈ ps, GoodProp pr) (rest : List Char) :
    parseGame (stB (';' :: (renderProps ps ++ ')' :: rest)) '(') =
      .ok (buildRootChain
        [SGFNode.mk (ps.foldl (fun m pr => setProp m pr.1 pr.2) []) []],
        stS rest ')') := by
  rw [parseGame_ok_step (readChar_stB _ '('), if_pos rfl]
  rw [parseGameLoop_node
    (by rw [skipWhitespace_cons_nws _ _ (by decide)]; exact peekChar_stB _ ';')
    (parseNode_spec_stB ps hps ')' (by decide) (by decide) (by decide) rest)]
  rw [parseGameLoop_close
    (by rw [skipWhitespace_stB_nws rest (by decide)]; exact peekChar_stB rest ')')]
  rfl

/-- One `(`-game step of the top-level loop, for a single-node game. -/
theorem parseGameTreeLoop_step_game (ps : List (Str × List Str))
    (hps : ∀ pr ∈ ps, GoodProp pr) (rest : List Char) (games : List SGFNode)
    (c₀ : Char) :
    parseGameTreeLoop
      (stS ('(' :: (';' :: (renderProps ps ++ ')' :: rest))) c₀) games =
      parseGameTreeLoop (stS rest ')')
        (games ++ [buildRootChain
          [SGFNode.mk (ps.foldl (fun m pr => setProp m pr.1 pr.2) []) []]]) :=
  parseGameTreeLoop_game
    (by rw [skipWhitespace_cons_nws _ _ (by decide)]; exact peekChar_stB _ '(')
    (parseGame_single_node ps hps rest) games

/-- End of input terminates the top-level loop. -/
theorem parseGameTreeLoop_nil (c₀ : Char) (games : List SGFNode) :
    parseGameTreeLoop (stS [] c₀) games = .ok (games, stS [] c₀) := by
  have h : peekChar (skipWhitespace (stS [] c₀)) = .error "EOF" := by
    rw [skipWhitespace_stS_nil]; exact peekChar_stS_nil _
  rw [parseGameTreeLoop_eof h games, skipWhitespace_stS_nil]

theorem parseProperty_values_error {p p₁ : SGFParser} {name : Str}
    {e : String} (h₁ : parsePropertyNameLoop p [] = .ok (name, p₁))
    (h₂ : parsePropertyValuesLoop p₁ [] = .error e) :
    parseProperty p = .error e := by
  unfold parseProperty
  rw [h₁]
  dsimp only
  rw [h₂]

theorem parseNode_loop_error {p p' : SGFParser} {e : String}
    (h : readChar p = .ok (';', p')) (h₂ : parseNodeLoop p' [] = .error e) :
    parseNode p = .error e := by
  rw [parseNode_ok_step h, if_pos rfl, h₂]

theorem parseGameTreeLoop_peek_error_ne {p : SGFParser} {a : String}
    (h : peekChar (skipWhitespace p) = .error a) (hne : a ≠ "EOF")
    (games : List SGFNode) :
    parseGameTreeLoop p games = .error a := by
  rw [parseGameTreeLoop]
  split
  · next heq => rw [h] at heq; cases heq; rw [if_neg hne]
  · next heq => rw [h] at heq; cases heq

/-- The top-level loop's error behaviour is independent of the games
accumulated so far: an error discards every partial result. -/
theorem parseGameTreeLoop_error_indep :
    ∀ (p : SGFParser) (acc acc' : List SGFNode) (e : String),
      parseGameTreeLoop p acc = .error e → parseGameTreeLoop p acc' = .error e := by
  intro p acc
  induction p, acc using parseGameTreeLoop.induct with
  | case1 p acc hpk =>
    intro acc' e h
    rw [parseGameTreeLoop_eof hpk] at h
    cases h
  | case2 p acc a hpk hne =>
    intro acc' e h
    rw [parseGameTreeLoop_peek_error_ne hpk hne] at h
    cases h
    exact parseGameTreeLoop_peek_error_ne hpk hne acc'
  | case3 p acc p₂ e₀ herr hpk =>
    intro acc' e h
    rw [parseGameTreeLoop_game_error hpk herr] at h
    cases h
    exact parseGameTreeLoop_game_error hpk herr acc'
  | case4 p acc p₂ g p₃ hok hpk ih =>
    intro acc' e h
    rw [parseGameTreeLoop_game hpk hok] at h
    rw [parseGameTreeLoop_game hpk hok]
    exact ih (acc' ++ [g]) e h
  | case5 p acc ch p₂ hpk hch =>
    intro acc' e h
    rw [parseGameTreeLoop_stop hpk hch] at h
    cases h

/-- Concrete abort run: an unexpected character in the second game tree
aborts the whole parse, discarding the successfully parsed first game. -/
theorem ParseSGF_unexpected_char_aborts :
    ParseSGF (str "(;PW[a])(x") =
      .error "failed to parse SGF: unexpected character in game tree: x" := by
  have hps : ∀ pr ∈ [((str "PW" : Str), [(str "a" : Str)])], GoodProp pr := by
    intro pr hpr
    simp only [List.mem_singleton] at hpr
    subst hpr
    refine ⟨⟨Or.inr rfl, by decide⟩, by simp, ?_⟩
    intro v hv
    simp only [List.mem_singleton] at hv
    subst hv
    intro c hc
    simp only [show str "a" = ['a'] from rfl, List.mem_singleton] at hc
    subst hc
    decide
  have hg : parseGame (stB ['x'] '(') =
      .error ("unexpected character in game tree: ".push 'x') := by
    rw [parseGame_ok_step (readChar_stB _ '('), if_pos rfl]
    rw [parseGameLoop_unexpected
      (by rw [skipWhitespace_cons_nws _ _ (by decide)]; exact peekChar_stB _ 'x')
      (by decide) (by decide) (by decide)]
  have hinput : str "(;PW[a])(x" =
      '(' :: (';' :: (renderProps [(str "PW", [str "a"])] ++ ')' :: ['(', 'x'])) :=
    rfl
  unfold ParseSGF parseGameTree
  rw [hinput]
  rw [parseGameTreeLoop_step_game _ hps ['(', 'x'] [] _]
  rw [parseGameTreeLoop_game_error
    (by rw [skipWhitespace_cons_nws _ _ (by decide)]; exact peekChar_stB _ '(')
    hg]
  rfl

/-- Concrete abort run: an unterminated bracket value in the second game
aborts the whole parse with the wrapped property error. -/
theorem ParseSGF_unterminated_value_aborts :
    ParseSGF (str "(;PW[a])(;PW[b") =
      .error "failed to parse SGF: error parsing property: EOF" := by
  have hps : ∀ pr ∈ [((str "PW" : Str), [(str "a" : Str)])], GoodProp pr := by
    intro pr hpr
    simp only [List.mem_singleton] at hpr
    subst hpr
    refine ⟨⟨Or.inr rfl, by decide⟩, by simp, ?_⟩
    intro v hv
    simp only [List.mem_singleton] at hv
    subst hv
    intro c hc
    simp only [show str "a" = ['a'] from rfl, List.mem_singleton] at hc
    subst hc
    decide
  have hval : parsePropertyValue (stB ['b'] '[') = .error "EOF" := by
    rw [parsePropertyValue_ok_step (readChar_stB _ '['), if_pos rfl]
    rw [parsePropertyValueLoop_ok_step (readChar_stS_cons 'b' [] '[') [] false]
    rw [if_neg (by decide), if_neg (by decide), if_neg (by decide)]
    exact parsePropertyValueLoop_error_step (readChar_stS_nil 'b') _ _
  have hname : parsePropertyNameLoop (stB ['W', '[', 'b'] 'P') [] =
      .ok ([('P' : Char), 'W'], stS ['[', 'b'] 'W') := by
    rw [parsePropertyNameLoop_ok_step (readChar_stB _ 'P') [],
      if_pos (by decide), if_neg (by decide)]
    rw [parsePropertyNameLoop_ok_step (readChar_stS_cons 'W' ['[', 'b'] 'P') _,
      if_pos (by decide), if_pos (by decide)]
    rfl
  have hprop : parseProperty (stB ['W', '[', 'b'] 'P') = .error "EOF" := by
    refine parseProperty_values_error hname ?_
    exact parsePropertyValuesLoop_val_error
      (by rw [skipWhitespace_cons_nws _ _ (by decide)]; exact peekChar_stB _ '[')
      hval []
  have hnode : parseNode (stB ['P', 'W', '[', 'b'] ';') =
      .error "error parsing property: EOF" := by
    refine parseNode_loop_error (readChar_stB _ ';') ?_
    have hpk : peekChar (skipWhitespace (stS ['P', 'W', '[', 'b'] ';')) =
        .ok ('P', stB ['W', '[', 'b'] 'P') := by
      rw [skipWhitespace_cons_nws _ _ (by decide)]; exact peekChar_stB _ 'P'
    rw [parseNodeLoop_prop_error hpk (by decide) hprop []]
    rfl
  have hg : parseGame (stB (';' :: ['P', 'W', '[', 'b']) '(') =
      .error "error parsing property: EOF" := by
    rw [parseGame_ok_step (readChar_stB _ '('), if_pos rfl]
    rw [parseGameLoop_node_error
      (by rw [skipWhitespace_cons_nws _ _ (by decide)]; exact peekChar_stB _ ';')
      hnode]
  have hinput : str "(;PW[a])(;PW[b" =
      '(' :: (';' :: (renderProps [(str "PW", [str "a"])] ++ ')' ::
        ('(' :: ';' :: ['P', 'W', '[', 'b']))) := rfl
  unfold ParseSGF parseGameTree
  rw [hinput]
  rw [parseGameTreeLoop_step_game _ hps _ [] _]
  rw [parseGameTreeLoop_game_error
    (by rw [skipWhitespace_cons_nws _ _ (by decide)]; exact peekChar_stB _ '(')
    hg]
  rfl

/-- C7: syntax errors in the tree parser are fail-fast and whole-file.
(1) Any error produced by the game-tree loop is independent of the games
already accumulated, so a successfully parsed prefix never yields a partial
result: the same single error comes back whatever was parsed before.
(2) A missing opening marker aborts `parseGame` with its descriptive error.
(3,4) Two whole-pipeline runs: an unexpected character and an unterminated
bracket value in the second game tree each abort `ParseSGF` with a single
descriptive error even though the first game tree parsed successfully. -/
theorem C7_failfast :
    (∀ (p : SGFParser) (acc acc' : List SGFNode) (e : String),
        parseGameTreeLoop p acc = .error e →
        parseGameTreeLoop p acc' = .error e) ∧
    (∀ (x : Char) (cs : List Char) (c₀ : Char), x ≠ '(' →
        parseGame (stS (x :: cs) c₀) =
          .error "expected ( at start of game") ∧
    ParseSGF (str "(;PW[a])(x") =
      .error "failed to parse SGF: unexpected character in game tree: x" ∧
    ParseSGF (str "(;PW[a])(;PW[b") =
      .error "failed to parse SGF: error parsing property: EOF" := by
  refine ⟨parseGameTreeLoop_error_indep, ?_,
    ParseSGF_unexpected_char_aborts, ParseSGF_unterminated_value_aborts⟩
  intro x cs c₀ hx
  rw [parseGame_ok_step (readChar_stS_cons x cs c₀), if_neg hx]

/-- Witness for C7: a concrete erroring loop state keeps the same error with
a non-empty accumulator, and a concrete missing-marker input aborts. -/
theorem C7_witness :
    parseGameTreeLoop (stS ['(', 'x'] ')') [SGFNode.mk [] []] =
        .error "unexpected character in game tree: x" ∧
    parseGame (stS ['y'] ')') = .error "expected ( at start of game" := by
  have h0 : parseGameTreeLoop (stS ['(', 'x'] ')') [] =
      .error "unexpected character in game tree: x" := by
    refine parseGameTreeLoop_game_error
      (by rw [skipWhitespace_cons_nws _ _ (by decide)]
          exact peekChar_stB _ '(') ?_ []
    rw [parseGame_ok_step (readChar_stB _ '('), if_pos rfl]
    rw [parseGameLoop_unexpected
      (by rw [skipWhitespace_cons_nws _ _ (by decide)]
          exact peekChar_stB _ 'x')
      (by decide) (by decide) (by decide)]
    rfl
  exact ⟨C7_failfast.1 _ [] _ _ h0, C7_failfast.2.1 'y' [] ')' (by decide)⟩

/-- A fold whose step keeps the second component independent of the first
component of the accumulator has a second component independent of the
initial first component. -/
theorem foldl_snd_indep {α β γ : Type} (f : β × γ → α → β × γ)
    (hf : ∀ (a : α) (b b' : β) (g : γ), (f (b, g) a).2 = (f (b', g) a).2) :
    ∀ (l : List α) (b b' : β) (g : γ),
      (l.foldl f (b, g)).2 = (l.foldl f (b', g)).2 := by
  intro l
  induction l with
  | nil => intro b b' g; rfl
  | cons a rest ih =>
    intro b b' g
    simp only [List.foldl_cons]
    have h2 := ih (f (b, g) a).1 (f (b', g) a).1 (f (b, g) a).2
    have h3 : ((f (b', g) a).1, (f (b, g) a).2) = f (b', g) a := by
      rw [hf a b b' g]
    rw [h3] at h2
    exact h2

/-- The game side of `parseMatchInfo` does not depend on the incoming match
metadata. -/
theorem parseMatchInfo_snd_indep (mi : Str) (a b : MatchMetadata) (g : Game) :
    (parseMatchInfo mi a g).2 = (parseMatchInfo mi b g).2 := by
  unfold parseMatchInfo
  refine foldl_snd_indep _ ?_ (splitBracketPair mi) a b g
  intro part x y gg
  dsimp only
  split_ifs <;>
    first
      | rfl
      | (cases parseAtoi ((splitN2Colon (trimSet (str "[]") part)).getD 1 []) <;>
          rfl)

/-- Normal form for the MI branch of `extractMetadata`: its game side does
not depend on the metadata threaded in. -/
theorem miBranch_canon (mi : Str) (g : Game) (x : MatchMetadata) :
    (if mi ≠ [] then parseMatchInfo mi x g else (x, g)).2 =
      (if mi ≠ [] then parseMatchInfo mi emptyMatchMetadata g
       else (emptyMatchMetadata, g)).2 := by
  split_ifs with h
  · exact parseMatchInfo_snd_indep mi x emptyMatchMetadata g
  · rfl

/-- The game side of `extractMetadata` does not depend on the incoming
match metadata. -/
theorem extractMetadata_snd_indep (node : SGFNode) (a b : MatchMetadata)
    (g : Game) :
    (extractMetadata node a g).2 = (extractMetadata node b g).2 := by
  unfold extractMetadata
  dsimp only
  simp only [miBranch_canon]

/-- The converted game of a tree does not depend on the metadata threaded
through `convertGamesLoop`: no metadata cross-contamination. -/
theorem convertGame_fst_indep (n : SGFNode) (a b : MatchMetadata) :
    (convertGame n a).1 = (convertGame n b).1 := by
  unfold convertGame
  dsimp only
  rw [extractMetadata_snd_indep n a b initialGame]

/-- `convertGamesLoop` appends exactly one game per tree, in encounter
order, and each game is a function of its own tree only. -/
theorem convertGamesLoop_games :
    ∀ (nodes : List SGFNode) (meta : MatchMetadata) (games : List Game),
      (convertGamesLoop nodes meta games).2 =
        games ++ nodes.map (fun n => (convertGame n emptyMatchMetadata).1) := by
  intro nodes
  induction nodes with
  | nil =>
    intro meta games
    simp [convertGamesLoop]
  | cons n rest ih =>
    intro meta games
    simp only [convertGamesLoop]
    rw [ih]
    rw [convertGame_fst_indep n meta emptyMatchMetadata]
    simp

/-- `convertNodesToMatch` on a non-empty node list: one game per tree, in
encounter order, each converted independently of the others. -/
theorem convertNodesToMatch_games (nodes : List SGFNode) (h : nodes ≠ []) :
    ∃ m, convertNodesToMatch nodes = .ok m ∧
      m.games = nodes.map (fun n => (convertGame n emptyMatchMetadata).1) := by
  cases nodes with
  | nil => exact absurd rfl h
  | cons n rest =>
    refine ⟨{ metadata := (convertGamesLoop (n :: rest) emptyMatchMetadata []).1,
              games := (convertGamesLoop (n :: rest) emptyMatchMetadata []).2 },
      ?_, ?_⟩
    · unfold convertNodesToMatch
      rw [if_neg (by simp)]
    · dsimp only
      rw [convertGamesLoop_games]
      rfl

/-- A balanced run of characters: what a nested variation body may look
like so that the depth counter of `skipVariationLoop` returns to zero
exactly at the closing parenthesis. -/
inductive Balanced : Str → Prop where
  | nil : Balanced []
  | other {c : Char} {v : Str} : c ≠ '(' → c ≠ ')' → Balanced v →
      Balanced (c :: v)
  | wrap {v w : Str} : Balanced v → Balanced w →
      Balanced ('(' :: (v ++ ')' :: w))

/-- Skipping a balanced run leaves the rest of the input intact (only the
saved character changes). -/
theorem skipVariationLoop_balanced {v : Str} (hv : Balanced v) :
    ∀ (cs : List Char) (c₀ : Char) (d : Nat), d ≠ 0 →
      ∃ c₁, skipVariationLoop (stS (v ++ cs) c₀) d =
        skipVariationLoop (stS cs c₁) d := by
  induction hv with
  | nil => intro cs c₀ d hd; exact ⟨c₀, rfl⟩
  | @other c v hne1 hne2 hb ih =>
    intro cs c₀ d hd
    rw [show (c :: v) ++ cs = c :: (v ++ cs) from rfl]
    rw [skipVariationLoop_ok_step hd (readChar_stS_cons c (v ++ cs) c₀)]
    rw [if_neg hne1, if_neg hne2]
    exact ih cs c d hd
  | @wrap v w hbv hbw ihv ihw =>
    intro cs c₀ d hd
    rw [show ('(' :: (v ++ ')' :: w)) ++ cs = '(' :: (v ++ ')' :: (w ++ cs))
      by simp]
    rw [skipVariationLoop_ok_step hd (readChar_stS_cons '(' _ c₀), if_pos rfl]
    obtain ⟨c₁, h₁⟩ := ihv (')' :: (w ++ cs)) '(' (d + 1) (by omega)
    rw [h₁]
    rw [skipVariationLoop_ok_step (by omega) (readChar_stS_cons ')' _ c₁)]
    rw [if_neg (by decide), if_pos rfl]
    have hdd : d + 1 - 1 = d := by omega
    rw [hdd]
    exact ihw cs ')' d hd

/-- Skipping a balanced variation body at depth 1 consumes exactly up to
its closing parenthesis. -/
theorem skipVariationLoop_balanced_one {v : Str} (hv : Balanced v)
    (cs : List Char) (c₀ : Char) :
    skipVariationLoop (stS (v ++ ')' :: cs) c₀) 1 = .ok (stS cs ')') := by
  obtain ⟨c₁, h⟩ := skipVariationLoop_balanced hv (')' :: cs) c₀ 1 one_ne_zero
  rw [h, skipVariationLoop_ok_step one_ne_zero (readChar_stS_cons ')' cs c₁)]
  rw [if_neg (by decide), if_pos rfl]
  exact skipVariationLoop_zero _

/-- A nested variation opened by `(` mid-sequence is discarded entirely:
the game loop continues right after its closing parenthesis with the same
accumulated nodes. -/
theorem parseGameLoop_variation_discard {v : Str} (hv : Balanced v)
    (cs : List Char) (c₀ : Char) (acc : List SGFNode) :
    parseGameLoop (stS ('(' :: (v ++ ')' :: cs)) c₀) acc =
      parseGameLoop (stS cs ')') acc := by
  refine parseGameLoop_variation
    (by rw [skipWhitespace_cons_nws _ _ (by decide)]; exact peekChar_stB _ '(')
    ?_ acc
  exact skipVariationLoop_balanced_one hv cs '('

/-- Concrete two-tree run: two concatenated game trees parse and convert
to two games in encounter order, numbered from their own MI properties. -/
theorem ParseSGF_two_trees :
    ∃ m, ParseSGF (str "(;MI[game:1])(;MI[game:2])") = .ok m ∧
      m.games.map (fun g => g.gameNumber) = [1, 2] := by
  have hgood : ∀ (s : String),
      (∀ c ∈ s.toList, c ≠ ']' ∧ c ≠ '\\') →
      ∀ pr ∈ [((str "MI" : Str), [(s.toList : Str)])], GoodProp pr := by
    intro s hs pr hpr
    simp only [List.mem_singleton] at hpr
    subst hpr
    refine ⟨⟨Or.inr rfl, ?_⟩, by simp, ?_⟩
    · show ∀ c ∈ (str "MI" : Str), isLetterChar c = true
      decide
    · intro u hu
      simp only [List.mem_singleton] at hu
      subst hu
      exact hs
  have hps1 : ∀ pr ∈ [((str "MI" : Str), [(str "game:1" : Str)])],
      GoodProp pr := hgood "game:1" (by decide)
  have hps2 : ∀ pr ∈ [((str "MI" : Str), [(str "game:2" : Str)])],
      GoodProp pr := hgood "game:2" (by decide)
  obtain ⟨m, hm, hg⟩ := convertNodesToMatch_games
    ((([] : List SGFNode) ++
      [buildRootChain [SGFNode.mk
        (([((str "MI" : Str), [(str "game:1" : Str)])]).foldl
          (fun m pr => setProp m pr.1 pr.2) []) []]]) ++
      [buildRootChain [SGFNode.mk
        (([((str "MI" : Str), [(str "game:2" : Str)])]).foldl
          (fun m pr => setProp m pr.1 pr.2) []) []]])
    (by simp)
  refine ⟨m, ?_, by rw [hg]; decide⟩
  unfold ParseSGF parseGameTree
  rw [show str "(;MI[game:1])(;MI[game:2])" =
    '(' :: (';' :: (renderProps [((str "MI" : Str), [(str "game:1" : Str)])] ++
      ')' :: ('(' :: (';' :: (renderProps
        [((str "MI" : Str), [(str "game:2" : Str)])] ++ ')' :: [])))))
    from rfl]
  rw [parseGameTreeLoop_step_game _ hps1 _ [] _]
  rw [parseGameTreeLoop_step_game _ hps2 [] _ _]
  rw [parseGameTreeLoop_nil]
  dsimp only
  rw [if_neg (by decide)]
  rw [hm]

/-- Claim C8: an input with two or more concatenated top-level game trees
produces one Game per tree, appended to `Match.games` in encounter order;
each game is converted from its own tree only, so the metadata threaded
between trees cannot cross-contaminate the games; a nested variation
opened by `(` mid-sequence is skipped entirely by the game loop and
contributes nothing; and the concrete two-tree input
`(;MI[game:1])(;MI[game:2])` parses to a match whose two games carry the
game numbers 1 and 2 in encounter order. -/
theorem C8_multi_tree :
    (∀ (nodes : List SGFNode), nodes ≠ [] →
      ∃ m, convertNodesToMatch nodes = .ok m ∧
        m.games = nodes.map (fun n => (convertGame n emptyMatchMetadata).1)) ∧
    (∀ (n : SGFNode) (a b : MatchMetadata),
      (convertGame n a).1 = (convertGame n b).1) ∧
    (∀ (v : Str), Balanced v →
      ∀ (cs : List Char) (c₀ : Char) (acc : List SGFNode),
        parseGameLoop (stS ('(' :: (v ++ ')' :: cs)) c₀) acc =
          parseGameLoop (stS cs ')') acc) ∧
    (∃ m, ParseSGF (str "(;MI[game:1])(;MI[game:2])") = .ok m ∧
      m.games.map (fun g => g.gameNumber) = [1, 2]) :=
  ⟨convertNodesToMatch_games, convertGame_fst_indep,
    fun _ hv cs c₀ acc => parseGameLoop_variation_discard hv cs c₀ acc,
    ParseSGF_two_trees⟩

/-- Witness for C8: the conversion part at a concrete one-node tree list,
and the variation-skip part at the concrete balanced body `;`. -/
theorem C8_witness :
    (∃ m, convertNodesToMatch [SGFNode.mk [] []] = .ok m ∧
      m.games =
        [SGFNode.mk [] []].map (fun n => (convertGame n emptyMatchMetadata).1)) ∧
    parseGameLoop (stS ('(' :: ([';'] ++ ')' :: [')'])) ')') [] =
      parseGameLoop (stS [')'] ')') [] :=
  ⟨C8_multi_tree.1 [SGFNode.mk [] []] (by simp),
    C8_multi_tree.2.2.1 [';']
      (Balanced.other (by decide) (by decide) Balanced.nil) [')'] ')' []⟩

end Gnubg
